import Mathlib

/-!
Verification of the genetic-algorithm timetable engine in `app.py`
(`class GeneticAlgorithmTimetable`), against its natural-language
specification.

Modelling conventions:
* Days are represented by their index into `app.config['DAYS']`
  (`0 = Monday, …, 4 = Friday`); the Python code only ever compares day
  strings for equality, and the five day strings are pairwise distinct,
  so index equality is equivalent.
* Database ids are `Nat`; fields that may be `None` in Python are
  `Option Nat`.  Python truthiness (`if fid:`) is `truthy` below.
* Randomness (`random.choice`, `random.random`, `random.randint`) is
  modelled by an explicit stream of natural numbers (`List Nat`) that is
  consumed one draw at a time; `random.choice xs` with draw `n` picks
  `xs[n % len xs]`, and a probabilistic test (`random.random() < p`)
  with draw `n` takes the true branch exactly when `n = 0`.  Every
  possible behaviour of the Python program corresponds to some stream.
* Unbounded `while` loops are modelled with an explicit iteration
  budget (`fuel`): one unit of fuel per loop iteration.  A result of
  `none` means the budget was exhausted with the loop still running, so
  the Python loop runs beyond any given bound exactly when the model
  returns `none` for every amount of fuel.
-/

namespace TimetableGA

/-- Python truthiness of an optional integer: `None` and `0` are falsy. -/
def truthy : Option Nat → Bool
  | none => false
  | some n => n != 0

/-- `self.time_slots` from `GeneticAlgorithmTimetable.__init__`:
`(index, start_time, end_time, is_lunch)`. -/
def time_slots : List (Nat × String × String × Bool) :=
  [ (0, "09:40", "10:40", false),
    (1, "10:50", "11:50", false),
    (2, "11:50", "12:40", true),
    (3, "12:40", "13:40", false),
    (4, "13:50", "14:50", false),
    (5, "15:00", "16:00", false),
    (6, "16:10", "17:10", false) ]

/-- `app.config['LECTURE_SLOT_INDICES']`. -/
def lecture_slots : List Nat := [0, 1, 3, 4, 5, 6]

/-- Indices of `app.config['DAYS']` (five working days). -/
def days : List Nat := [0, 1, 2, 3, 4]

/-- Start time of a slot, `self.time_slots[i][1]`. -/
def slotStart (i : Nat) : String :=
  (time_slots.getD i (0, "", "", false)).2.1

/-- End time of a slot, `self.time_slots[i][2]`. -/
def slotEnd (i : Nat) : String :=
  (time_slots.getD i (0, "", "", false)).2.2.1

/-- The fields of a `Room` row used by the engine.  `id` is `none` for
the synthetic default rooms built in `__init__` (they are constructed
without a primary key). -/
structure Room where
  id : Option Nat
  room_number : String
  room_type : String
  capacity : Nat
  deriving Repr, DecidableEq

/-- `Room(room_number='Default Classroom', room_type='Classroom', capacity=60)`. -/
def defaultClassroom : Room :=
  ⟨none, "Default Classroom", "Classroom", 60⟩

/-- `Room(room_number='Default Lab', room_type='Lab', capacity=40)`. -/
def defaultLab : Room :=
  ⟨none, "Default Lab", "Lab", 40⟩

/-- The fields of a `ClassSubject` row used by the engine. -/
structure ClassSubject where
  id : Nat
  subject_id : Nat
  faculty_id : Option Nat
  lecture_slots_per_week : Nat
  practical_slots_per_week : Nat
  deriving Repr, DecidableEq

/-- The fields of a `Batch` row used by the engine. -/
structure Batch where
  id : Nat
  mentor_id : Option Nat
  deriving Repr, DecidableEq

/-- One entry of `individual['lectures']`. -/
structure Lecture where
  class_subject_id : Nat
  subject_id : Nat
  faculty_id : Option Nat
  room_id : Option Nat
  day : Nat
  slot_number : Nat
  start_time : String
  end_time : String
  deriving Repr, DecidableEq

/-- One entry of `individual['practicals']`. -/
structure Practical where
  batch_id : Nat
  subject_id : Nat
  faculty_id : Option Nat
  room_id : Option Nat
  day : Nat
  start_slot : Nat
  end_slot : Nat
  start_time : String
  end_time : String
  deriving Repr, DecidableEq

/-- One entry of `individual['mentoring']`. -/
structure Mentoring where
  batch_id : Nat
  faculty_id : Option Nat
  room_id : Option Nat
  day : Nat
  slot_number : Nat
  start_time : String
  end_time : String
  deriving Repr, DecidableEq

/-- A GA individual: the three session lists of a candidate schedule. -/
structure Individual where
  lectures : List Lecture
  practicals : List Practical
  mentoring : List Mentoring
  deriving Repr, DecidableEq

/-- `individual = {'lectures': [], 'practicals': [], 'mentoring': []}`. -/
def emptyIndividual : Individual := ⟨[], [], []⟩

/-- The per-run data loaded in `GeneticAlgorithmTimetable.__init__`:
the class subjects, batches and the two room lists (after the
default-room substitution). -/
structure GA where
  class_subjects : List ClassSubject
  batches : List Batch
  classrooms : List Room
  labs : List Room
  deriving Repr, DecidableEq

/-- `self.classrooms` as computed by `__init__` from the room table:
filter by type, then substitute the synthetic default classroom if the
filter is empty. -/
def initClassrooms (rooms : List Room) : List Room :=
  let cs := rooms.filter (fun r => r.room_type == "Classroom")
  if cs.isEmpty then [defaultClassroom] else cs

/-- `self.labs` as computed by `__init__`. -/
def initLabs (rooms : List Room) : List Room :=
  let ls := rooms.filter (fun r => r.room_type == "Lab")
  if ls.isEmpty then [defaultLab] else ls

/-- `GeneticAlgorithmTimetable.check_faculty_busy`. -/
def check_faculty_busy (ind : Individual) (faculty_id : Option Nat)
    (day slot_number : Nat) : Bool :=
  if !truthy faculty_id then false
  else
    ind.lectures.any (fun l =>
        l.faculty_id == faculty_id && l.day == day &&
        l.slot_number == slot_number) ||
    ind.practicals.any (fun p =>
        p.faculty_id == faculty_id && p.day == day &&
        decide (p.start_slot ≤ slot_number) &&
        decide (slot_number ≤ p.end_slot)) ||
    ind.mentoring.any (fun m =>
        m.faculty_id == faculty_id && m.day == day &&
        m.slot_number == slot_number)

/-- The list of still-available classrooms computed inside
`find_available_classroom`: start from `self.classrooms` and filter out
every room whose id equals the room of a lecture or mentoring session
already placed at the same `(day, slot)`. -/
def available_classrooms (ga : GA) (ind : Individual)
    (day slot_number : Nat) : List Room :=
  let a := ind.lectures.foldl
    (fun acc l =>
      if l.day == day && l.slot_number == slot_number then
        acc.filter (fun r => r.id != l.room_id)
      else acc)
    ga.classrooms
  ind.mentoring.foldl
    (fun acc m =>
      if m.day == day && m.slot_number == slot_number then
        acc.filter (fun r => r.id != m.room_id)
      else acc)
    a

/-- `GeneticAlgorithmTimetable.find_available_classroom`; the final
`random.choice` is resolved by the draw `n`. -/
def find_available_classroom (ga : GA) (ind : Individual)
    (day slot_number n : Nat) : Option Room :=
  if ga.classrooms.isEmpty then none
  else
    let avail := available_classrooms ga ind day slot_number
    if avail.isEmpty then none
    else some (avail.getD (n % avail.length) defaultClassroom)

/-- The list of still-available labs computed inside
`find_available_lab`: start from `self.labs` and filter out every room
whose id equals the room of a practical on the same day whose slot
range overlaps `[start_slot, end_slot]` (ranges conflict unless one
ends strictly before the other begins). -/
def available_labs (ga : GA) (ind : Individual)
    (day start_slot end_slot : Nat) : List Room :=
  ind.practicals.foldl
    (fun acc p =>
      if p.day == day &&
          !(decide (end_slot < p.start_slot) || decide (start_slot > p.end_slot)) then
        acc.filter (fun r => r.id != p.room_id)
      else acc)
    ga.labs

/-- `GeneticAlgorithmTimetable.find_available_lab`. -/
def find_available_lab (ga : GA) (ind : Individual)
    (day start_slot end_slot n : Nat) : Option Room :=
  if ga.labs.isEmpty then none
  else
    let avail := available_labs ga ind day start_slot end_slot
    if avail.isEmpty then none
    else some (avail.getD (n % avail.length) defaultLab)

/-- `GeneticAlgorithmTimetable.crossover`: for each of the three session
lists, when both parents have a non-empty list, split at the floor
midpoint of parent 1 and concatenate parent 1's first half with
parent 2's second half; otherwise the child's list stays empty. -/
def crossover (parent1 parent2 : Individual) : Individual :=
  let lectures :=
    if !parent1.lectures.isEmpty && !parent2.lectures.isEmpty then
      let split := parent1.lectures.length / 2
      parent1.lectures.take split ++ parent2.lectures.drop split
    else []
  let practicals :=
    if !parent1.practicals.isEmpty && !parent2.practicals.isEmpty then
      let split := parent1.practicals.length / 2
      parent1.practicals.take split ++ parent2.practicals.drop split
    else []
  let mentoring :=
    if !parent1.mentoring.isEmpty && !parent2.mentoring.isEmpty then
      let split := parent1.mentoring.length / 2
      parent1.mentoring.take split ++ parent2.mentoring.drop split
    else []
  ⟨lectures, practicals, mentoring⟩

/-- One draw from the random stream. -/
def draw (ch : List Nat) : Nat × List Nat :=
  (ch.headD 0, ch.tail)

/-- A probabilistic test (`random.random() < p`) resolved by a draw:
the true branch is taken exactly when the draw is `0`. -/
def rbool (n : Nat) : Bool := n == 0

/-- `[s for s in self.lecture_slots if s != 2]` in `mutate`. -/
def mutationSlots : List Nat := lecture_slots.filter (fun s => s != 2)

/-- `GeneticAlgorithmTimetable.mutate`: with probability 0.3, pick a
random lecture and either move it to a random day or to a random
non-lunch slot (also updating the derived times); no conflict predicate
is consulted.  The Python code mutates the lecture dict in place; here
the updated individual is returned. -/
def mutate (ind : Individual) (ch : List Nat) : Individual × List Nat :=
  if ind.lectures.isEmpty then (ind, ch)
  else
    let (r1, ch) := draw ch
    if !rbool r1 then (ind, ch)
    else
      let (i, ch) := draw ch
      let idx := i % ind.lectures.length
      let (r2, ch) := draw ch
      if rbool r2 then
        let (d, ch) := draw ch
        let day := d % days.length
        (⟨ind.lectures.modify (fun l => { l with day := day }) idx,
          ind.practicals, ind.mentoring⟩, ch)
      else
        let (s, ch) := draw ch
        let new_slot := mutationSlots.getD (s % mutationSlots.length) 0
        (⟨ind.lectures.modify
            (fun l => { l with
              slot_number := new_slot,
              start_time := slotStart new_slot,
              end_time := slotEnd new_slot }) idx,
          ind.practicals, ind.mentoring⟩, ch)

/-! ### Python dict model

`calculate_fitness` builds Python dicts by `d[k] = d.get(k, 0) + w`.
A dict is modelled as an association list ordered by key insertion,
exactly mirroring dict semantics: assignment replaces the value of an
existing key in place, otherwise appends the new key at the end. -/

/-- An insertion-ordered `int → int` Python dict. -/
abbrev Dict := List (Nat × Nat)

/-- `d.get(k, 0)`. -/
def dget : Dict → Nat → Nat
  | [], _ => 0
  | kv :: rest, k => if kv.1 == k then kv.2 else dget rest k

/-- `d[k] = v`. -/
def dset : Dict → Nat → Nat → Dict
  | [], k, v => [(k, v)]
  | kv :: rest, k, v =>
    if kv.1 == k then (k, v) :: rest else kv :: dset rest k v

/-- `d[k] = d.get(k, 0) + w`. -/
def dbump (m : Dict) (k w : Nat) : Dict :=
  dset m k (dget m k + w)

/-- The `faculty_hours` dict of `calculate_fitness`: one unit per
lecture, two per practical, one per mentoring session, skipping falsy
faculty ids. -/
def faculty_hours (ind : Individual) : Dict :=
  let m := ind.lectures.foldl
    (fun m l => if truthy l.faculty_id then dbump m (l.faculty_id.getD 0) 1 else m) []
  let m := ind.practicals.foldl
    (fun m p => if truthy p.faculty_id then dbump m (p.faculty_id.getD 0) 2 else m) m
  ind.mentoring.foldl
    (fun m s => if truthy s.faculty_id then dbump m (s.faculty_id.getD 0) 1 else m) m

/-- Penalty step 1 of `calculate_fitness`: faculty overload. -/
def overload_penalty (ind : Individual) : Nat :=
  (faculty_hours ind).foldl
    (fun p kv => if kv.2 > 20 then p + (kv.2 - 20) * 10 else p) 0

/-- The `(room_id, day, slot_number)` key used by the room-conflict
check of `calculate_fitness`. -/
def lectureKey (l : Lecture) : Option Nat × Nat × Nat :=
  (l.room_id, l.day, l.slot_number)

/-- Penalty step 2 of `calculate_fitness`: 50 per lecture whose
`(room, day, slot)` key is already in the `room_schedule` dict (whose
value type is irrelevant, so only the key list is kept). -/
def room_conflict_penalty (ind : Individual) : Nat :=
  (ind.lectures.foldl
    (fun acc l =>
      let key := lectureKey l
      if key ∈ acc.2 then (acc.1 + 50, acc.2)
      else (acc.1, acc.2 ++ [key]))
    ((0 : Nat), ([] : List (Option Nat × Nat × Nat)))).1

/-- The `subject_lecture_hours` dict of `calculate_fitness`. -/
def subject_lecture_hours (ind : Individual) : Dict :=
  ind.lectures.foldl (fun m l => dbump m l.subject_id 1) []

/-- The `subject_practical_hours` dict of `calculate_fitness`. -/
def subject_practical_hours (ind : Individual) : Dict :=
  ind.practicals.foldl (fun m p => dbump m p.subject_id 2) []

/-- Penalty step 3 of `calculate_fitness`: per-subject shortfall of
lecture slots (weight 30) and practical hours (weight 40). -/
def shortfall_penalty (ga : GA) (ind : Individual) : Nat :=
  ga.class_subjects.foldl
    (fun p cs =>
      let required_lecture := cs.lecture_slots_per_week
      let required_practical := cs.practical_slots_per_week * 2
      let actual_lecture := dget (subject_lecture_hours ind) cs.subject_id
      let actual_practical := dget (subject_practical_hours ind) cs.subject_id
      let p := if actual_lecture < required_lecture then
          p + (required_lecture - actual_lecture) * 30 else p
      if actual_practical < required_practical then
        p + (required_practical - actual_practical) * 40 else p)
    0

/-- Penalty step 4 of `calculate_fitness`: missing mentoring sessions,
100 per batch with a mentor beyond the number of mentoring sessions. -/
def mentoring_penalty (ga : GA) (ind : Individual) : Nat :=
  let mentoring_count := ind.mentoring.length
  let required_mentoring := (ga.batches.filter (fun b => truthy b.mentor_id)).length
  if mentoring_count < required_mentoring then
    (required_mentoring - mentoring_count) * 100
  else 0

/-- `GeneticAlgorithmTimetable.calculate_fitness`: base 1000 minus the
four penalties, floored at 0. -/
def calculate_fitness (ga : GA) (ind : Individual) : Int :=
  let penalties : Nat :=
    overload_penalty ind + room_conflict_penalty ind +
    shortfall_penalty ga ind + mentoring_penalty ga ind
  max ((1000 : Int) - penalties) 0

/-! ### Individual builder (`create_individual`)

The lecture loop (`while scheduled < lecture_count`) and the practical
loop (`while scheduled < practical_count`) have no bound on failed
attempts, so they are modelled with explicit fuel, one unit per loop
iteration; `none` means the loop is still running after `fuel`
iterations.  The mentoring loop is `for _ in range(20)` and needs no
fuel.  The whole construction is wrapped in `try`/`except` with 50
outer attempts, but no statement of the loop bodies can raise (all
list picks are from non-empty lists and all dict keys are present), so
the first outer attempt always returns and the `except` branch is
unreachable; the outer loop is therefore not represented. -/

/-- The lecture dict literal committed by `create_individual`. -/
def mkLecture (cs : ClassSubject) (room : Room) (day slot : Nat) : Lecture :=
  { class_subject_id := cs.id, subject_id := cs.subject_id,
    faculty_id := cs.faculty_id, room_id := room.id,
    day := day, slot_number := slot,
    start_time := slotStart slot, end_time := slotEnd slot }

/-- The practical dict literal committed by `create_individual`. -/
def mkPractical (cs : ClassSubject) (batch : Batch) (room : Room)
    (day start_slot end_slot : Nat) : Practical :=
  { batch_id := batch.id, subject_id := cs.subject_id,
    faculty_id := cs.faculty_id, room_id := room.id,
    day := day, start_slot := start_slot, end_slot := end_slot,
    start_time := slotStart start_slot, end_time := slotEnd end_slot }

/-- The mentoring dict literal committed by `create_individual`. -/
def mkMentoring (batch : Batch) (room : Room) (day slot : Nat) : Mentoring :=
  { batch_id := batch.id, faculty_id := batch.mentor_id,
    room_id := room.id, day := day, slot_number := slot,
    start_time := slotStart slot, end_time := slotEnd slot }

/-- One iteration of the lecture while-loop of `create_individual`:
draw a day and a slot, skip the lunch slot, skip if the subject's
faculty is busy, skip if no classroom is available, otherwise commit
one lecture.  `none` means the iteration placed nothing. -/
def lecture_attempt (ga : GA) (cs : ClassSubject) (ind : Individual)
    (ch : List Nat) : Option Individual × List Nat :=
  let (d, ch) := draw ch
  let day := d % days.length
  let (s, ch) := draw ch
  let slot_idx := lecture_slots.getD (s % lecture_slots.length) 0
  if slot_idx == 2 then (none, ch)
  else if check_faculty_busy ind cs.faculty_id day slot_idx then (none, ch)
  else
    let (c, ch) := draw ch
    match find_available_classroom ga ind day slot_idx c with
    | none => (none, ch)
    | some classroom =>
      (some ⟨ind.lectures ++ [mkLecture cs classroom day slot_idx],
        ind.practicals, ind.mentoring⟩, ch)

/-- One subject's lecture-scheduling loop in `create_individual`
(step 1), placing `remaining` more lectures. -/
def schedule_lectures (ga : GA) (cs : ClassSubject) :
    Nat → Nat → Individual → List Nat → Option (Individual × List Nat)
  | fuel, remaining, ind, ch =>
    match remaining with
    | 0 => some (ind, ch)
    | r + 1 =>
      match fuel with
      | 0 => none
      | fuel + 1 =>
        match lecture_attempt ga cs ind ch with
        | (none, ch2) => schedule_lectures ga cs fuel (r + 1) ind ch2
        | (some ind2, ch2) => schedule_lectures ga cs fuel r ind2 ch2

/-- One iteration of the practical while-loop of `create_individual`:
draw a day and an afternoon window (4-5 or 5-6), skip if the faculty is
busy in either slot, skip if no lab is free for the window, otherwise
commit one practical. -/
def practical_attempt (ga : GA) (cs : ClassSubject) (batch : Batch)
    (ind : Individual) (ch : List Nat) : Option Individual × List Nat :=
  let (d, ch) := draw ch
  let day := d % days.length
  let (s, ch) := draw ch
  let start_slot := [4, 5].getD (s % 2) 4
  let end_slot := start_slot + 1
  if end_slot > 6 then (none, ch)
  else if check_faculty_busy ind cs.faculty_id day start_slot ||
      check_faculty_busy ind cs.faculty_id day end_slot then (none, ch)
  else
    let (c, ch) := draw ch
    match find_available_lab ga ind day start_slot end_slot c with
    | none => (none, ch)
    | some lab =>
      (some ⟨ind.lectures,
        ind.practicals ++ [mkPractical cs batch lab day start_slot end_slot],
        ind.mentoring⟩, ch)

/-- One `(batch, subject)` practical-scheduling loop in
`create_individual` (step 2), placing `remaining` more practicals. -/
def schedule_practicals (ga : GA) (cs : ClassSubject) (batch : Batch) :
    Nat → Nat → Individual → List Nat → Option (Individual × List Nat)
  | fuel, remaining, ind, ch =>
    match remaining with
    | 0 => some (ind, ch)
    | r + 1 =>
      match fuel with
      | 0 => none
      | fuel + 1 =>
        match practical_attempt ga cs batch ind ch with
        | (none, ch2) => schedule_practicals ga cs batch fuel (r + 1) ind ch2
        | (some ind2, ch2) => schedule_practicals ga cs batch fuel r ind2 ch2

/-- One iteration of the 20-try mentoring loop of `create_individual`:
draw a day and a slot, skip lunch, skip if the mentor is busy or no
classroom is free, otherwise commit one mentoring session. -/
def mentoring_attempt (ga : GA) (batch : Batch) (ind : Individual)
    (ch : List Nat) : Option Individual × List Nat :=
  let (d, ch) := draw ch
  let day := d % days.length
  let (s, ch) := draw ch
  let slot_idx := lecture_slots.getD (s % lecture_slots.length) 0
  if slot_idx == 2 then (none, ch)
  else if check_faculty_busy ind batch.mentor_id day slot_idx then (none, ch)
  else
    let (c, ch) := draw ch
    match find_available_classroom ga ind day slot_idx c with
    | none => (none, ch)
    | some classroom =>
      (some ⟨ind.lectures, ind.practicals,
        ind.mentoring ++ [mkMentoring batch classroom day slot_idx]⟩, ch)

/-- The 20-try mentoring loop of `create_individual` (step 3) for a
batch whose `mentor_id` is truthy; the loop breaks after the first
successful placement and gives up after `tries` failed attempts. -/
def schedule_mentoring_tries (ga : GA) (batch : Batch) :
    Nat → Individual → List Nat → Individual × List Nat
  | 0, ind, ch => (ind, ch)
  | t + 1, ind, ch =>
    match mentoring_attempt ga batch ind ch with
    | (none, ch2) => schedule_mentoring_tries ga batch t ind ch2
    | (some ind2, ch2) => (ind2, ch2)

/-- Step 1 of `create_individual`: lecture loops for all subjects. -/
def schedule_all_lectures (ga : GA) (fuel : Nat) :
    List ClassSubject → Individual → List Nat → Option (Individual × List Nat)
  | [], ind, ch => some (ind, ch)
  | cs :: rest, ind, ch =>
    match schedule_lectures ga cs fuel cs.lecture_slots_per_week ind ch with
    | none => none
    | some (ind, ch) => schedule_all_lectures ga fuel rest ind ch

/-- Inner subject loop of step 2 of `create_individual`. -/
def schedule_batch_practicals (ga : GA) (batch : Batch) (fuel : Nat) :
    List ClassSubject → Individual → List Nat → Option (Individual × List Nat)
  | [], ind, ch => some (ind, ch)
  | cs :: rest, ind, ch =>
    match schedule_practicals ga cs batch fuel cs.practical_slots_per_week ind ch with
    | none => none
    | some (ind, ch) => schedule_batch_practicals ga batch fuel rest ind ch

/-- Step 2 of `create_individual`: practical loops for all batches. -/
def schedule_all_practicals (ga : GA) (fuel : Nat) :
    List Batch → Individual → List Nat → Option (Individual × List Nat)
  | [], ind, ch => some (ind, ch)
  | b :: rest, ind, ch =>
    match schedule_batch_practicals ga b fuel ga.class_subjects ind ch with
    | none => none
    | some (ind, ch) => schedule_all_practicals ga fuel rest ind ch

/-- Step 3 of `create_individual`: mentoring for batches with mentors. -/
def schedule_all_mentoring (ga : GA) :
    List Batch → Individual → List Nat → Individual × List Nat
  | [], ind, ch => (ind, ch)
  | b :: rest, ind, ch =>
    if truthy b.mentor_id then
      let (ind, ch) := schedule_mentoring_tries ga b 20 ind ch
      schedule_all_mentoring ga rest ind ch
    else schedule_all_mentoring ga rest ind ch

/-- `GeneticAlgorithmTimetable.create_individual`, starting from the
empty individual.  `none` means some placement loop has not finished
within `fuel` iterations (the Python code is still looping). -/
def create_individual (ga : GA) (fuel : Nat) (ch : List Nat) :
    Option (Individual × List Nat) :=
  match schedule_all_lectures ga fuel ga.class_subjects emptyIndividual ch with
  | none => none
  | some (ind, ch) =>
    match schedule_all_practicals ga fuel ga.batches ind ch with
    | none => none
    | some (ind, ch) =>
      some (schedule_all_mentoring ga ga.batches ind ch)

/-- The lecture loop of `create_individual` on a given random stream
terminates when some finite iteration budget completes it. -/
def buildTerminates (ga : GA) : Prop :=
  ∃ fuel ch out, create_individual ga fuel ch = some out

/-! ### Evolution driver (`evolve`) -/

/-- Insertion step of the descending sort used to model
`fitness_scores.sort(key=lambda x: x[0], reverse=True)`. -/
def insertDesc (x : Int × Individual) :
    List (Int × Individual) → List (Int × Individual)
  | [] => [x]
  | y :: ys => if x.1 > y.1 then x :: y :: ys else y :: insertDesc x ys

/-- Sort the fitness-score list in descending fitness order. -/
def sortDesc (l : List (Int × Individual)) : List (Int × Individual) :=
  l.foldr insertDesc []

/-- `self.best_fitness`, initially `float('-inf')` (`none`). -/
def gtBest (f : Int) : Option Int → Bool
  | none => true
  | some b => f > b

/-- Order on best-fitness values (`none` is `-inf`). -/
def obLe : Option Int → Option Int → Prop
  | none, _ => True
  | some _, none => False
  | some a, some b => a ≤ b

/-- `copy.deepcopy` on a candidate: in this value-level embedding a deep
copy is structurally the same value (object identity is not modelled;
the copied value shares no mutable state with the population). -/
def deepcopy (ind : Individual) : Individual := ind

/-- The generation-crossing state of `evolve`: the population plus the
best-so-far fitness and solution. -/
structure GenState where
  population : List Individual
  best_fitness : Option Int
  best_solution : Option Individual
  deriving Repr, DecidableEq

/-- The offspring loop of `evolve` (`while len(next_generation) <
population_size`), generating `k` children; each iteration selects two
parents from the sorted score list, applies `crossover` and, with
probability `mutation_rate`, `mutate`.  `none` propagates a
`create_individual` call that is still looping. -/
def reproduce (ga : GA) (fuel : Nat) (scores : List (Int × Individual)) :
    Nat → List Individual → List Nat → Option (List Individual × List Nat)
  | 0, acc, ch => some (acc, ch)
  | k + 1, acc, ch =>
    let pick : Option (Individual × Individual × List Nat) :=
      if scores.length > 10 then
        let (n1, ch) := draw ch
        let (n2, ch) := draw ch
        let top := scores.take 10
        some ((top.getD (n1 % top.length) (0, emptyIndividual)).2,
              (top.getD (n2 % top.length) (0, emptyIndividual)).2, ch)
      else
        match scores with
        | [] =>
          match create_individual ga fuel ch with
          | none => none
          | some (p1, ch) =>
            match create_individual ga fuel ch with
            | none => none
            | some (p2, ch) => some (p1, p2, ch)
        | [x] =>
          match create_individual ga fuel ch with
          | none => none
          | some (p2, ch) => some (x.2, p2, ch)
        | x :: y :: _ => some (x.2, y.2, ch)
    match pick with
    | none => none
    | some (parent1, parent2, ch) =>
      let child := crossover parent1 parent2
      let (r, ch) := draw ch
      let (child, ch) := if rbool r then mutate child ch else (child, ch)
      reproduce ga fuel scores k (acc ++ [child]) ch

/-- One iteration of the generation loop of `evolve`: score, sort,
update the best-so-far on strict improvement (deep copy), carry the
elites forward and refill with offspring.  `none` models the
`IndexError` on `fitness_scores[0]` when the population is empty, or a
still-looping `create_individual`. -/
def generationStep (ga : GA) (fuel population_size elite_size : Nat)
    (st : GenState) (ch : List Nat) : Option (GenState × List Nat) :=
  let fitness_scores :=
    sortDesc (st.population.map (fun i => (calculate_fitness ga i, i)))
  match fitness_scores with
  | [] => none
  | top :: _ =>
    let (best_fitness, best_solution) :=
      if gtBest top.1 st.best_fitness then
        (some top.1, some (deepcopy top.2))
      else (st.best_fitness, st.best_solution)
    let elites := (fitness_scores.take elite_size).map (fun x => x.2)
    match reproduce ga fuel fitness_scores
        (population_size - elites.length) elites ch with
    | none => none
    | some (next_generation, ch) =>
      some (⟨next_generation, best_fitness, best_solution⟩, ch)

/-- The generation loop of `evolve`, run for `generations` iterations. -/
def evolveLoop (ga : GA) (fuel population_size elite_size : Nat) :
    Nat → GenState → List Nat → Option (GenState × List Nat)
  | 0, st, ch => some (st, ch)
  | g + 1, st, ch =>
    match generationStep ga fuel population_size elite_size st ch with
    | none => none
    | some (st, ch) => evolveLoop ga fuel population_size elite_size g st ch

/-- The population-initialisation loop of `evolve`. -/
def initPopulation (ga : GA) (fuel : Nat) :
    Nat → List Individual → List Nat → Option (List Individual × List Nat)
  | 0, acc, ch => some (acc, ch)
  | k + 1, acc, ch =>
    match create_individual ga fuel ch with
    | none => none
    | some (ind, ch) => initPopulation ga fuel k (acc ++ [ind]) ch

/-- `GeneticAlgorithmTimetable.evolve`: build the initial population,
run the generation loop, return the final state (whose
`best_solution` is the returned candidate). -/
def evolve (ga : GA) (fuel population_size generations elite_size : Nat)
    (ch : List Nat) : Option (GenState × List Nat) :=
  match initPopulation ga fuel population_size [] ch with
  | none => none
  | some (pop, ch) =>
    evolveLoop ga fuel population_size elite_size generations
      ⟨pop, none, none⟩ ch

/-- One row added to the `Timetable` or `PracticalSlot` table by
`save_to_database` (only the fields that are set there). -/
structure DBRow where
  table : String
  class_id : Nat
  day : Nat
  slot_number : Option Nat
  start_time : String
  end_time : String
  subject_id : Option Nat
  faculty_id : Option Nat
  room_id : Option Nat
  batch_id : Option Nat
  session_type : String
  is_break : Bool
  deriving Repr, DecidableEq

/-- The `Timetable` rows added for the lectures of a solution by
`save_to_database`. -/
def lectureRows (class_id : Nat) (solution : Individual) : List DBRow :=
  solution.lectures.map (fun l =>
    { table := "Timetable", class_id := class_id, day := l.day,
      slot_number := some l.slot_number, start_time := l.start_time,
      end_time := l.end_time, subject_id := some l.subject_id,
      faculty_id := l.faculty_id, room_id := l.room_id,
      batch_id := none, session_type := "Lecture", is_break := false })

/-- The `PracticalSlot` and `Timetable` rows added for the practicals
of a solution by `save_to_database` (two rows per practical). -/
def practicalRows (class_id : Nat) (solution : Individual) : List DBRow :=
  solution.practicals.flatMap (fun p =>
    [ { table := "PracticalSlot", class_id := class_id, day := p.day,
        slot_number := none, start_time := p.start_time,
        end_time := p.end_time, subject_id := some p.subject_id,
        faculty_id := p.faculty_id, room_id := p.room_id,
        batch_id := some p.batch_id, session_type := "Practical",
        is_break := false },
      { table := "Timetable", class_id := class_id, day := p.day,
        slot_number := some p.start_slot, start_time := p.start_time,
        end_time := p.end_time, subject_id := some p.subject_id,
        faculty_id := p.faculty_id, room_id := p.room_id,
        batch_id := some p.batch_id, session_type := "Practical",
        is_break := false } ])

/-- The lunch-break rows added for every day by `save_to_database`. -/
def breakRows (class_id : Nat) : List DBRow :=
  days.map (fun d =>
    { table := "Timetable", class_id := class_id, day := d,
      slot_number := some 2, start_time := "11:50", end_time := "12:40",
      subject_id := none, faculty_id := none, room_id := none,
      batch_id := none, session_type := "Break", is_break := true })

/-- `GeneticAlgorithmTimetable.save_to_database`.  The two `Timetable` /
`PracticalSlot` delete calls clear earlier rows, so the result models
the rows committed for this class.  The mentoring loop reads the
undefined name `menturing` in its first iteration, so a non-empty
mentoring list raises `NameError` before any mentoring row is built;
the pending lecture and practical rows are then never committed, and
the error propagates to the caller. -/
def save_to_database (class_id : Nat) (solution : Individual) :
    Except String (List DBRow) :=
  if !solution.mentoring.isEmpty then
    Except.error "NameError: name menturing is not defined"
  else
    Except.ok (lectureRows class_id solution ++
      practicalRows class_id solution ++ breakRows class_id)

/-! ### Specification-side definitions

These are written from the words of the specification claims (NOT from
the code) and compared with the translated code above. -/

/-- The crossover rule as claim C5 words it, with no emptiness guard:
split parent 1's list at the floor midpoint of its length and append
parent 2's tail from that point, independently for each list. -/
def crossover_claimed (parent1 parent2 : Individual) : Individual :=
  ⟨parent1.lectures.take (parent1.lectures.length / 2) ++
     parent2.lectures.drop (parent1.lectures.length / 2),
   parent1.practicals.take (parent1.practicals.length / 2) ++
     parent2.practicals.drop (parent1.practicals.length / 2),
   parent1.mentoring.take (parent1.mentoring.length / 2) ++
     parent2.mentoring.drop (parent1.mentoring.length / 2)⟩

/-- A concrete lecture session used by counterexamples and witnesses. -/
def sampleLecture : Lecture :=
  { class_subject_id := 1, subject_id := 1, faculty_id := some 1,
    room_id := some 1, day := 0, slot_number := 0,
    start_time := "09:40", end_time := "10:40" }

/-- A second concrete lecture session. -/
def sampleLecture2 : Lecture :=
  { class_subject_id := 2, subject_id := 2, faculty_id := some 2,
    room_id := some 2, day := 1, slot_number := 1,
    start_time := "10:50", end_time := "11:50" }

/-- A concrete mentoring session. -/
def sampleMentoring : Mentoring :=
  { batch_id := 1, faculty_id := some 1, room_id := some 1,
    day := 0, slot_number := 0,
    start_time := "09:40", end_time := "10:40" }

/-- Parent A for the C5 counterexample: two lectures, nothing else. -/
def c5parentA : Individual := ⟨[sampleLecture, sampleLecture2], [], []⟩

/-- Parent B for the C5 counterexample: no sessions at all. -/
def c5parentB : Individual := ⟨[], [], []⟩

section Claim5

/-- Case analysis of one list component of `crossover`. -/
theorem splice_cases {α : Type} (a b : List α) :
    (a ≠ [] → b ≠ [] →
      (if !a.isEmpty && !b.isEmpty then
          a.take (a.length / 2) ++ b.drop (a.length / 2)
        else []) = a.take (a.length / 2) ++ b.drop (a.length / 2)) ∧
    ((a = [] ∨ b = []) →
      (if !a.isEmpty && !b.isEmpty then
          a.take (a.length / 2) ++ b.drop (a.length / 2)
        else []) = []) ∧
    (∀ x ∈ (if !a.isEmpty && !b.isEmpty then
          a.take (a.length / 2) ++ b.drop (a.length / 2)
        else []), x ∈ a ∨ x ∈ b) := by
  refine ⟨fun ha hb => ?_, fun h => ?_, fun x hx => ?_⟩
  · simp [List.isEmpty_iff, ha, hb]
  · rcases h with h | h <;> simp [List.isEmpty_iff, h]
  · split at hx
    · rcases List.mem_append.mp hx with h | h
      · exact Or.inl (List.take_subset _ _ h)
      · exact Or.inr (List.drop_subset _ _ h)
    · simp at hx

/-- The component lists of `crossover`, by unfolding. -/
theorem crossover_def (p1 p2 : Individual) :
    crossover p1 p2 =
      ⟨(if !p1.lectures.isEmpty && !p2.lectures.isEmpty then
          p1.lectures.take (p1.lectures.length / 2) ++
            p2.lectures.drop (p1.lectures.length / 2)
        else []),
       (if !p1.practicals.isEmpty && !p2.practicals.isEmpty then
          p1.practicals.take (p1.practicals.length / 2) ++
            p2.practicals.drop (p1.practicals.length / 2)
        else []),
       (if !p1.mentoring.isEmpty && !p2.mentoring.isEmpty then
          p1.mentoring.take (p1.mentoring.length / 2) ++
            p2.mentoring.drop (p1.mentoring.length / 2)
        else [])⟩ := rfl

/-- C5 counterexample: with `parentA` having two lectures and `parentB`
none, the code yields an empty lecture list, while the claimed
unconditional midpoint splice yields parentA's first half
`[sampleLecture]`; the claim as stated is false on this input. -/
theorem c5_counterexample :
    (crossover c5parentA c5parentB).lectures = [] ∧
    (crossover_claimed c5parentA c5parentB).lectures = [sampleLecture] ∧
    crossover c5parentA c5parentB ≠ crossover_claimed c5parentA c5parentB := by
  refine ⟨rfl, rfl, ?_⟩
  decide

/-- C5 (amended): for each of the three session lists independently,
when both parents' lists are non-empty the child's list is parent A's
first half (floor midpoint of parent A's length) followed by parent B's
tail from that same index; when either parent's list is empty the
child's list is empty; and crossover re-validates nothing — every child
session is literally a session of one of the parents. -/
theorem c5_crossover_splits (p1 p2 : Individual) :
    (p1.lectures ≠ [] → p2.lectures ≠ [] →
      (crossover p1 p2).lectures =
        p1.lectures.take (p1.lectures.length / 2) ++
          p2.lectures.drop (p1.lectures.length / 2)) ∧
    ((p1.lectures = [] ∨ p2.lectures = []) → (crossover p1 p2).lectures = []) ∧
    (p1.practicals ≠ [] → p2.practicals ≠ [] →
      (crossover p1 p2).practicals =
        p1.practicals.take (p1.practicals.length / 2) ++
          p2.practicals.drop (p1.practicals.length / 2)) ∧
    ((p1.practicals = [] ∨ p2.practicals = []) → (crossover p1 p2).practicals = []) ∧
    (p1.mentoring ≠ [] → p2.mentoring ≠ [] →
      (crossover p1 p2).mentoring =
        p1.mentoring.take (p1.mentoring.length / 2) ++
          p2.mentoring.drop (p1.mentoring.length / 2)) ∧
    ((p1.mentoring = [] ∨ p2.mentoring = []) → (crossover p1 p2).mentoring = []) ∧
    (∀ x ∈ (crossover p1 p2).lectures, x ∈ p1.lectures ∨ x ∈ p2.lectures) ∧
    (∀ x ∈ (crossover p1 p2).practicals, x ∈ p1.practicals ∨ x ∈ p2.practicals) ∧
    (∀ x ∈ (crossover p1 p2).mentoring, x ∈ p1.mentoring ∨ x ∈ p2.mentoring) := by
  rw [crossover_def]
  obtain ⟨hl1, hl2, hl3⟩ := splice_cases p1.lectures p2.lectures
  obtain ⟨hp1, hp2, hp3⟩ := splice_cases p1.practicals p2.practicals
  obtain ⟨hm1, hm2, hm3⟩ := splice_cases p1.mentoring p2.mentoring
  exact ⟨hl1, hl2, hp1, hp2, hm1, hm2, hl3, hp3, hm3⟩

/-- Witness for C5: the amended theorem applied to concrete parents with
its hypotheses discharged. -/
theorem c5_witness :
    (crossover c5parentA c5parentA).lectures =
      c5parentA.lectures.take 1 ++ c5parentA.lectures.drop 1 ∧
    (crossover c5parentA c5parentB).lectures = [] :=
  ⟨(c5_crossover_splits c5parentA c5parentA).1 (by decide) (by decide),
   (c5_crossover_splits c5parentA c5parentB).2.1 (Or.inr rfl)⟩

end Claim5

section Claim9

/-- The scheduling request of spec scenario B: zero rooms supplied, one
subject needing a single lecture and no practicals, no batches; the
two room lists are what `__init__` computes from the empty room table. -/
def noRoomsGA : GA :=
  { class_subjects := [⟨1, 1, some 1, 1, 0⟩],
    batches := [],
    classrooms := initClassrooms [],
    labs := initLabs [] }

/-- C9: whenever the supplied room list has no classroom (resp. no lab)
`__init__` substitutes exactly the one synthetic placeholder room of
that type, the room lists used for construction are therefore never
empty, and on a concrete zero-room request the builder still completes
and returns a candidate. -/
theorem c9_default_rooms :
    (∀ rooms : List Room,
      ((∀ r ∈ rooms, r.room_type ≠ "Classroom") →
        initClassrooms rooms = [defaultClassroom]) ∧
      ((∀ r ∈ rooms, r.room_type ≠ "Lab") →
        initLabs rooms = [defaultLab]) ∧
      initClassrooms rooms ≠ [] ∧ initLabs rooms ≠ []) ∧
    (create_individual noRoomsGA 1 [0, 0, 0]).isSome = true := by
  constructor
  · intro rooms
    refine ⟨fun h => ?_, fun h => ?_, ?_, ?_⟩
    · rw [initClassrooms]
      have : rooms.filter (fun r => r.room_type == "Classroom") = [] := by
        rw [List.filter_eq_nil_iff]
        intro r hr
        simpa using h r hr
      simp [this]
    · rw [initLabs]
      have : rooms.filter (fun r => r.room_type == "Lab") = [] := by
        rw [List.filter_eq_nil_iff]
        intro r hr
        simpa using h r hr
      simp [this]
    · rw [initClassrooms]
      split <;> simp_all [List.isEmpty_iff]
    · rw [initLabs]
      split <;> simp_all [List.isEmpty_iff]
  · rfl

/-- Witness for C9: the theorem instantiated at the empty room list,
with both absence hypotheses discharged. -/
theorem c9_witness :
    initClassrooms [] = [defaultClassroom] ∧ initLabs [] = [defaultLab] :=
  ⟨(c9_default_rooms.1 []).1 (by simp),
   ((c9_default_rooms.1 []).2.1 (by simp))⟩

end Claim9

section Claim10

/-- C10: persisting a solution fails with the `NameError` on the
undefined name `menturing` exactly when the mentoring list is
non-empty, before any mentoring row is built; a successful save is
possible only for an empty mentoring list, and no saved row is ever a
mentoring row. -/
theorem c10_save_mentoring (cid : Nat) (sol : Individual) :
    ((∃ rows, save_to_database cid sol = Except.ok rows) ↔ sol.mentoring = []) ∧
    (∀ rows, save_to_database cid sol = Except.ok rows →
      ∀ row ∈ rows, row.session_type ≠ "Mentoring") ∧
    (sol.mentoring ≠ [] →
      save_to_database cid sol =
        Except.error "NameError: name menturing is not defined") := by
  by_cases h : sol.mentoring = []
  · have hok : save_to_database cid sol =
        Except.ok (lectureRows cid sol ++ practicalRows cid sol ++ breakRows cid) := by
      simp [save_to_database, h]
    refine ⟨⟨fun _ => h, fun _ => ⟨_, hok⟩⟩, ?_, fun hn => absurd h hn⟩
    intro rows hrows row hrow
    rw [hok] at hrows
    cases hrows
    simp only [lectureRows, practicalRows, breakRows, List.mem_append,
      List.mem_map, List.mem_flatMap] at hrow
    rcases hrow with (⟨l, _, hl⟩ | ⟨p, _, hp⟩) | ⟨d, _, hd⟩
    · rw [← hl]; exact show "Lecture" ≠ "Mentoring" by decide
    · simp only [List.mem_cons, List.mem_singleton] at hp
      rcases hp with h1 | h1 | h1
      · rw [h1]; exact show "Practical" ≠ "Mentoring" by decide
      · rw [h1]; exact show "Practical" ≠ "Mentoring" by decide
      · exact absurd h1 (by simp)
    · rw [← hd]; exact show "Break" ≠ "Mentoring" by decide
  · have hne : sol.mentoring.isEmpty = false := by
      simpa [List.isEmpty_iff] using h
    have herr : save_to_database cid sol =
        Except.error "NameError: name menturing is not defined" := by
      simp [save_to_database, hne]
    refine ⟨⟨?_, fun he => absurd he h⟩, ?_, fun _ => herr⟩
    · rintro ⟨rows, hrows⟩
      rw [herr] at hrows
      cases hrows
    · intro rows hrows
      rw [herr] at hrows
      cases hrows

/-- One-mentoring solution used by the C10 witness. -/
def c10sol : Individual := ⟨[], [], [sampleMentoring]⟩

/-- Witness for C10: on a solution with one mentoring session the save
raises the `NameError`. -/
theorem c10_witness :
    save_to_database 1 c10sol =
      Except.error "NameError: name menturing is not defined" :=
  (c10_save_mentoring 1 c10sol).2.2 (by decide)

end Claim10

section Claim6

/-- `calculate_fitness` with the ambient mutable state threaded through
explicitly: the random stream and the (in Python, mutable) candidate.
The translated body makes no random draw and assigns nothing, so both
pass through unchanged. -/
def calculate_fitness_run (ga : GA) (ind : Individual) (rng : List Nat) :
    Int × Individual × List Nat :=
  (calculate_fitness ga ind, ind, rng)

/-- C6: fitness is a pure deterministic function of the candidate and
the request — the returned score is independent of the random stream,
the candidate and the stream are returned unchanged, and the score does
not depend on request data outside the subject assignments and batches
(the only request components the fitness reads). -/
theorem c6_fitness_pure (ga ga2 : GA) (ind : Individual) (rng rng2 : List Nat) :
    (calculate_fitness_run ga ind rng).1 = (calculate_fitness_run ga ind rng2).1 ∧
    (calculate_fitness_run ga ind rng).2.1 = ind ∧
    (calculate_fitness_run ga ind rng).2.2 = rng ∧
    (ga.class_subjects = ga2.class_subjects → ga.batches = ga2.batches →
      calculate_fitness ga ind = calculate_fitness ga2 ind) := by
  refine ⟨rfl, rfl, rfl, fun h1 h2 => ?_⟩
  simp only [calculate_fitness, shortfall_penalty, mentoring_penalty]
  rw [h1, h2]

/-- Witness for C6: two requests that differ in their room inventory
but agree on subjects and batches give the empty candidate the same
fitness. -/
theorem c6_witness :
    calculate_fitness noRoomsGA emptyIndividual =
      calculate_fitness
        { noRoomsGA with classrooms := [defaultLab], labs := [] }
        emptyIndividual :=
  (c6_fitness_pure noRoomsGA
    { noRoomsGA with classrooms := [defaultLab], labs := [] }
    emptyIndividual [] []).2.2.2 rfl rfl

end Claim6

section Claim2

/-! #### Dict lemmas -/

/-- The key list of a dict, in insertion order. -/
def keys (m : Dict) : List Nat := m.map (fun kv => kv.1)

/-- Repeated `dbump` over a list of `(key, weight)` pairs. -/
def bumpAll (ps : List (Nat × Nat)) (m : Dict) : Dict :=
  ps.foldl (fun m p => dbump m p.1 p.2) m

/-- Total weight carried by key `k` in a pair list. -/
def weightSum (ps : List (Nat × Nat)) (k : Nat) : Nat :=
  ((ps.filter (fun p => p.1 == k)).map (fun p => p.2)).sum

theorem dget_dset (m : Dict) (k v k2 : Nat) :
    dget (dset m k v) k2 = if k2 = k then v else dget m k2 := by
  induction m with
  | nil =>
    by_cases h : k2 = k
    · simp [dset, dget, h]
    · have hb : (k == k2) = false := beq_eq_false_iff_ne.mpr fun hc => h hc.symm
      simp [dset, dget, hb, h]
  | cons kv rest ih =>
    by_cases hk : kv.1 = k
    · have hb : (kv.1 == k) = true := beq_iff_eq.mpr hk
      by_cases h : k2 = k
      · subst h
        simp [dset, dget, hb]
      · have hb2 : (k == k2) = false := beq_eq_false_iff_ne.mpr fun hc => h hc.symm
        have hb3 : (kv.1 == k2) = false :=
          beq_eq_false_iff_ne.mpr fun hc => h (hk ▸ hc).symm
        simp [dset, dget, hb, hb2, hb3, h]
    · have hb : (kv.1 == k) = false := beq_eq_false_iff_ne.mpr hk
      by_cases h2 : kv.1 = k2
      · have hb2 : (kv.1 == k2) = true := beq_iff_eq.mpr h2
        have hne : ¬ k2 = k := fun hc => hk (h2.symm ▸ hc)
        simp [dset, dget, hb, hb2, hne]
      · have hb2 : (kv.1 == k2) = false := beq_eq_false_iff_ne.mpr h2
        simp [dset, dget, hb, hb2, ih]

theorem dget_cons_self (kv : Nat × Nat) (rest : Dict) :
    dget (kv :: rest) kv.1 = kv.2 := by
  simp [dget]

theorem dget_cons_ne (kv : Nat × Nat) (rest : Dict) (k : Nat) (h : kv.1 ≠ k) :
    dget (kv :: rest) k = dget rest k := by
  simp [dget, h]

theorem bumpAll_nil (m : Dict) : bumpAll [] m = m := rfl

theorem bumpAll_cons (p : Nat × Nat) (ps : List (Nat × Nat)) (m : Dict) :
    bumpAll (p :: ps) m = bumpAll ps (dbump m p.1 p.2) := rfl

theorem bumpAll_append (a b : List (Nat × Nat)) (m : Dict) :
    bumpAll (a ++ b) m = bumpAll b (bumpAll a m) := by
  simp [bumpAll]

theorem weightSum_nil (k : Nat) : weightSum [] k = 0 := rfl

theorem weightSum_cons (p : Nat × Nat) (ps : List (Nat × Nat)) (k : Nat) :
    weightSum (p :: ps) k =
      (if p.1 = k then p.2 else 0) + weightSum ps k := by
  by_cases h : p.1 = k <;> simp [weightSum, List.filter_cons, h]

theorem weightSum_append (a b : List (Nat × Nat)) (k : Nat) :
    weightSum (a ++ b) k = weightSum a k + weightSum b k := by
  simp [weightSum, List.filter_append]

theorem dget_bumpAll (ps : List (Nat × Nat)) (m : Dict) (k : Nat) :
    dget (bumpAll ps m) k = dget m k + weightSum ps k := by
  induction ps generalizing m with
  | nil => simp [bumpAll_nil, weightSum_nil]
  | cons p rest ih =>
    rw [bumpAll_cons, ih, weightSum_cons, dbump, dget_dset]
    by_cases h : k = p.1
    · subst h
      simp
      omega
    · have : p.1 ≠ k := fun hc => h hc.symm
      simp [h, this]

theorem keys_cons (kv : Nat × Nat) (m : Dict) :
    keys (kv :: m) = kv.1 :: keys m := rfl

theorem keys_dset (m : Dict) (k v : Nat) :
    keys (dset m k v) = if k ∈ keys m then keys m else keys m ++ [k] := by
  induction m with
  | nil => simp [dset, keys]
  | cons kv rest ih =>
    by_cases hk : kv.1 = k
    · have hb : (kv.1 == k) = true := beq_iff_eq.mpr hk
      have hm : k ∈ keys (kv :: rest) := by
        rw [keys_cons, hk]
        exact List.mem_cons_self ..
      rw [show dset (kv :: rest) k v = (k, v) :: rest by simp [dset, hb],
        if_pos hm, keys_cons, keys_cons, hk]
    · have hb : (kv.1 == k) = false := beq_eq_false_iff_ne.mpr hk
      have hne : k ≠ kv.1 := fun hc => hk hc.symm
      rw [show dset (kv :: rest) k v = kv :: dset rest k v by simp [dset, hb],
        keys_cons, ih, keys_cons]
      by_cases hm : k ∈ keys rest
      · rw [if_pos hm, if_pos (List.mem_cons_of_mem _ hm)]
      · rw [if_neg hm, if_neg (by simp [List.mem_cons, hne, hm]),
          List.cons_append]

theorem keys_nodup_dset (m : Dict) (k v : Nat) (h : (keys m).Nodup) :
    (keys (dset m k v)).Nodup := by
  rw [keys_dset]
  split
  · exact h
  · rename_i hk
    simp [List.nodup_append, h, hk]

theorem mem_keys_bumpAll (ps : List (Nat × Nat)) (m : Dict) (k2 : Nat) :
    k2 ∈ keys (bumpAll ps m) ↔
      k2 ∈ keys m ∨ k2 ∈ ps.map (fun p => p.1) := by
  induction ps generalizing m with
  | nil => simp [bumpAll_nil]
  | cons p rest ih =>
    rw [bumpAll_cons, ih]
    rw [show keys (dbump m p.1 p.2) =
        (if p.1 ∈ keys m then keys m else keys m ++ [p.1]) from keys_dset ..]
    by_cases hm : p.1 ∈ keys m
    · simp only [hm, if_true, List.map_cons, List.mem_cons]
      constructor
      · rintro (h | h)
        · exact Or.inl h
        · exact Or.inr (Or.inr h)
      · rintro (h | h | h)
        · exact Or.inl h
        · exact Or.inl (h ▸ hm)
        · exact Or.inr h
    · simp only [hm, if_false, List.mem_append, List.mem_singleton,
        List.map_cons, List.mem_cons]
      tauto

theorem keys_nodup_bumpAll (ps : List (Nat × Nat)) (m : Dict)
    (h : (keys m).Nodup) : (keys (bumpAll ps m)).Nodup := by
  induction ps generalizing m with
  | nil => exact h
  | cons p rest ih => exact ih _ (keys_nodup_dset _ _ _ h)

/-- The overload-penalty fold over dict items, as a sum over items. -/
theorem foldl_pen (m : Dict) : ∀ p0 : Nat,
    m.foldl (fun p kv => if kv.2 > 20 then p + (kv.2 - 20) * 10 else p) p0
      = p0 + (m.map (fun kv => if kv.2 > 20 then (kv.2 - 20) * 10 else 0)).sum := by
  induction m with
  | nil => simp
  | cons kv rest ih =>
    intro p0
    rw [List.foldl_cons, ih, List.map_cons, List.sum_cons]
    by_cases h : kv.2 > 20
    · simp [h]
      omega
    · simp [h]

/-- The sum of the overload penalty over dict items equals the sum of
the penalty of the lookups over the key list, when keys are unique. -/
theorem map_items_eq_keys (m : Dict) (h : (keys m).Nodup) :
    (m.map (fun kv => if kv.2 > 20 then (kv.2 - 20) * 10 else 0)).sum =
      ((keys m).map (fun k =>
        if dget m k > 20 then (dget m k - 20) * 10 else 0)).sum := by
  induction m with
  | nil => rfl
  | cons kv rest ih =>
    have hk : kv.1 ∉ keys rest := by
      have := h
      simp only [keys, List.map_cons, List.nodup_cons] at this
      exact this.1
    have hrest : (keys rest).Nodup := by
      have := h
      simp only [keys, List.map_cons, List.nodup_cons] at this
      exact this.2
    have hmap : (keys rest).map (fun k =>
          if dget (kv :: rest) k > 20 then (dget (kv :: rest) k - 20) * 10 else 0) =
        (keys rest).map (fun k =>
          if dget rest k > 20 then (dget rest k - 20) * 10 else 0) := by
      apply List.map_congr_left
      intro k hkm
      have : kv.1 ≠ k := fun hc => hk (hc ▸ hkm)
      rw [dget_cons_ne _ _ _ this]
    simp only [keys, List.map_cons, List.sum_cons]
    rw [show dget (kv :: rest) kv.1 = kv.2 from dget_cons_self .., ← keys,
      hmap, ih hrest]

/-! #### Faculty-hours bridge -/

/-- The `(key, weight)` pairs contributed to `faculty_hours` by one
session list: weight `w` per session with a truthy faculty id. -/
def pairsOf {α : Type} (w : Nat) (f : α → Option Nat) (xs : List α) :
    List (Nat × Nat) :=
  xs.filterMap (fun x => if truthy (f x) then some ((f x).getD 0, w) else none)

/-- All pairs contributed to `faculty_hours` by a candidate. -/
def facultyPairs (ind : Individual) : List (Nat × Nat) :=
  pairsOf 1 Lecture.faculty_id ind.lectures ++
  pairsOf 2 Practical.faculty_id ind.practicals ++
  pairsOf 1 Mentoring.faculty_id ind.mentoring

theorem fold_pairsOf {α : Type} (w : Nat) (f : α → Option Nat) (xs : List α) :
    ∀ m : Dict,
      xs.foldl (fun m x =>
        if truthy (f x) then dbump m ((f x).getD 0) w else m) m
      = bumpAll (pairsOf w f xs) m := by
  induction xs with
  | nil => intro m; rfl
  | cons x rest ih =>
    intro m
    by_cases h : truthy (f x) = true
    · rw [List.foldl_cons, if_pos h, ih,
        show pairsOf w f (x :: rest) = ((f x).getD 0, w) :: pairsOf w f rest by
          simp [pairsOf, List.filterMap_cons, h],
        bumpAll_cons]
    · rw [List.foldl_cons, if_neg h, ih,
        show pairsOf w f (x :: rest) = pairsOf w f rest by
          simp [pairsOf, List.filterMap_cons, Bool.not_eq_true .. ▸ h]]

theorem faculty_hours_eq_bumpAll (ind : Individual) :
    faculty_hours ind = bumpAll (facultyPairs ind) [] := by
  rw [faculty_hours, fold_pairsOf, fold_pairsOf, fold_pairsOf,
    facultyPairs, bumpAll_append, bumpAll_append]

theorem weightSum_pairsOf {α : Type} (w : Nat) (f : α → Option Nat)
    (xs : List α) (k : Nat) (hk : k ≠ 0) :
    weightSum (pairsOf w f xs) k =
      w * (xs.filter (fun x => f x == some k)).length := by
  induction xs with
  | nil => simp [pairsOf, weightSum_nil]
  | cons x rest ih =>
    cases hfx : f x with
    | none =>
      rw [show pairsOf w f (x :: rest) = pairsOf w f rest by
          simp [pairsOf, List.filterMap_cons, hfx, truthy], ih,
        show (x :: rest).filter (fun x => f x == some k) =
          rest.filter (fun x => f x == some k) by
          simp [List.filter_cons, hfx]]
    | some j =>
      by_cases hj : j = 0
      · subst hj
        rw [show pairsOf w f (x :: rest) = pairsOf w f rest by
            simp [pairsOf, List.filterMap_cons, hfx, truthy], ih,
          show (x :: rest).filter (fun x => f x == some k) =
            rest.filter (fun x => f x == some k) by
            simp [List.filter_cons, hfx]
            exact fun hc => absurd hc.symm hk]
      · have ht2 : truthy (some j) = true := by simp [truthy, hj]
        rw [show pairsOf w f (x :: rest) = (j, w) :: pairsOf w f rest by
            simp [pairsOf, List.filterMap_cons, hfx, ht2],
          weightSum_cons, ih]
        by_cases hjk : j = k
        · rw [if_pos hjk,
            show (x :: rest).filter (fun x => f x == some k) =
              x :: rest.filter (fun x => f x == some k) by
              simp [List.filter_cons, hfx, hjk]]
          rw [List.length_cons]
          ring
        · rw [if_neg hjk,
            show (x :: rest).filter (fun x => f x == some k) =
              rest.filter (fun x => f x == some k) by
              simp [List.filter_cons, hfx, hjk]]
          omega

theorem mem_map_pairsOf {α : Type} (w : Nat) (f : α → Option Nat)
    (xs : List α) (k : Nat) :
    k ∈ (pairsOf w f xs).map (fun p => p.1) ↔
      k ≠ 0 ∧ ∃ x ∈ xs, f x = some k := by
  induction xs with
  | nil => simp [pairsOf]
  | cons x rest ih =>
    cases hfx : f x with
    | none =>
      rw [show pairsOf w f (x :: rest) = pairsOf w f rest by
          simp [pairsOf, List.filterMap_cons, hfx, truthy], ih]
      constructor
      · rintro ⟨hk, y, hy, hfy⟩
        exact ⟨hk, y, List.mem_cons_of_mem _ hy, hfy⟩
      · rintro ⟨hk, y, hy, hfy⟩
        rcases List.mem_cons.mp hy with rfl | hy
        · rw [hfx] at hfy; cases hfy
        · exact ⟨hk, y, hy, hfy⟩
    | some j =>
      by_cases hj : j = 0
      · subst hj
        rw [show pairsOf w f (x :: rest) = pairsOf w f rest by
            simp [pairsOf, List.filterMap_cons, hfx, truthy], ih]
        constructor
        · rintro ⟨hk, y, hy, hfy⟩
          exact ⟨hk, y, List.mem_cons_of_mem _ hy, hfy⟩
        · rintro ⟨hk, y, hy, hfy⟩
          rcases List.mem_cons.mp hy with rfl | hy
          · rw [hfx] at hfy
            injection hfy with h
            exact absurd h.symm hk
          · exact ⟨hk, y, hy, hfy⟩
      · have ht2 : truthy (some j) = true := by simp [truthy, hj]
        rw [show pairsOf w f (x :: rest) = (j, w) :: pairsOf w f rest by
            simp [pairsOf, List.filterMap_cons, hfx, ht2],
          List.map_cons, List.mem_cons, ih]
        constructor
        · rintro (rfl | ⟨hk, y, hy, hfy⟩)
          · exact ⟨hj, x, List.mem_cons_self .., hfx⟩
          · exact ⟨hk, y, List.mem_cons_of_mem _ hy, hfy⟩
        · rintro ⟨hk, y, hy, hfy⟩
          rcases List.mem_cons.mp hy with rfl | hy
          · rw [hfx] at hfy
            injection hfy with h
            exact Or.inl h.symm
          · exact Or.inr ⟨hk, y, hy, hfy⟩

/-! #### Specification-side penalties (from the words of claim C2) -/

/-- The weekly load of a faculty member in a candidate, as the claim
words it: 1 per lecture, 2 per practical, 1 per mentoring session. -/
def facultyLoad (ind : Individual) (f : Nat) : Nat :=
  (ind.lectures.filter (fun l => l.faculty_id == some f)).length +
  2 * (ind.practicals.filter (fun p => p.faculty_id == some f)).length +
  (ind.mentoring.filter (fun m => m.faculty_id == some f)).length

/-- The distinct (truthy) faculty ids appearing in a candidate. -/
def candidateFacultyIds (ind : Individual) : List Nat :=
  ((ind.lectures.filterMap Lecture.faculty_id ++
    ind.practicals.filterMap Practical.faculty_id ++
    ind.mentoring.filterMap Mentoring.faculty_id).filter (fun f => f != 0)).dedup

/-- Claim C2 (a): for each faculty of the candidate whose weekly load
exceeds 20, `(load - 20) * 10`. -/
def overload_penalty_claimed (ind : Individual) : Nat :=
  ((candidateFacultyIds ind).map (fun f =>
    if facultyLoad ind f > 20 then (facultyLoad ind f - 20) * 10 else 0)).sum

theorem mem_keys_faculty (ind : Individual) (k : Nat) :
    k ∈ keys (bumpAll (facultyPairs ind) []) ↔ k ∈ candidateFacultyIds ind := by
  rw [mem_keys_bumpAll]
  simp only [keys, List.map_nil, List.not_mem_nil, false_or]
  rw [facultyPairs]
  simp only [List.map_append, List.mem_append, mem_map_pairsOf]
  rw [candidateFacultyIds, List.mem_dedup, List.mem_filter]
  simp only [List.mem_append, List.mem_filterMap, bne_iff_ne, ne_eq]
  constructor
  · rintro ((⟨hk, x, hx, hfx⟩ | ⟨hk, x, hx, hfx⟩) | ⟨hk, x, hx, hfx⟩)
    · exact ⟨Or.inl (Or.inl ⟨x, hx, hfx⟩), hk⟩
    · exact ⟨Or.inl (Or.inr ⟨x, hx, hfx⟩), hk⟩
    · exact ⟨Or.inr ⟨x, hx, hfx⟩, hk⟩
  · rintro ⟨(⟨x, hx, hfx⟩ | ⟨x, hx, hfx⟩) | ⟨x, hx, hfx⟩, hk⟩
    · exact Or.inl (Or.inl ⟨hk, x, hx, hfx⟩)
    · exact Or.inl (Or.inr ⟨hk, x, hx, hfx⟩)
    · exact Or.inr ⟨hk, x, hx, hfx⟩

theorem mem_keys_faculty_ne_zero (ind : Individual) (k : Nat)
    (h : k ∈ keys (bumpAll (facultyPairs ind) [])) : k ≠ 0 := by
  rw [mem_keys_faculty, candidateFacultyIds, List.mem_dedup,
    List.mem_filter] at h
  simpa using h.2

theorem dget_faculty_hours (ind : Individual) (k : Nat) (hk : k ≠ 0) :
    dget (faculty_hours ind) k = facultyLoad ind k := by
  rw [faculty_hours_eq_bumpAll, dget_bumpAll, facultyPairs,
    weightSum_append, weightSum_append,
    weightSum_pairsOf _ _ _ _ hk, weightSum_pairsOf _ _ _ _ hk,
    weightSum_pairsOf _ _ _ _ hk, facultyLoad]
  rw [show dget [] k = 0 from rfl]
  omega

/-- C2 (a): the overload penalty computed through the Python dict
equals the claimed per-faculty formula. -/
theorem overload_penalty_eq (ind : Individual) :
    overload_penalty ind = overload_penalty_claimed ind := by
  have hnodup : (keys (bumpAll (facultyPairs ind) [])).Nodup :=
    keys_nodup_bumpAll _ _ (by simp [keys])
  rw [overload_penalty, faculty_hours_eq_bumpAll, foldl_pen,
    map_items_eq_keys _ hnodup, Nat.zero_add]
  have hperm : List.Perm (keys (bumpAll (facultyPairs ind) []))
      (candidateFacultyIds ind) := by
    apply List.perm_of_nodup_nodup_toFinset_eq hnodup (List.nodup_dedup _)
    ext k
    simp only [List.mem_toFinset]
    exact mem_keys_faculty ind k
  have hcongr : (keys (bumpAll (facultyPairs ind) [])).map
      (fun k => if dget (bumpAll (facultyPairs ind) []) k > 20 then
          (dget (bumpAll (facultyPairs ind) []) k - 20) * 10 else 0)
      = (keys (bumpAll (facultyPairs ind) [])).map (fun k =>
          if facultyLoad ind k > 20 then (facultyLoad ind k - 20) * 10 else 0) := by
    apply List.map_congr_left
    intro k hkm
    rw [← faculty_hours_eq_bumpAll,
      dget_faculty_hours ind k (mem_keys_faculty_ne_zero ind k hkm)]
  rw [hcongr, overload_penalty_claimed]
  exact List.Perm.sum_eq (List.Perm.map _ hperm)

/-! #### Room-conflict bridge -/

/-- Number of elements of `xs` whose key is new relative to `seen`
(first occurrences), following the seen-set recursion of the
room-conflict fold. -/
def newCount {κ : Type} [DecidableEq κ] : List κ → List κ → Nat
  | [], _ => 0
  | x :: xs, seen =>
    if x ∈ seen then newCount xs seen else newCount xs (seen ++ [x]) + 1

theorem newCount_le_length {κ : Type} [DecidableEq κ] (xs : List κ) :
    ∀ seen, newCount xs seen ≤ xs.length := by
  induction xs with
  | nil => intro seen; simp [newCount]
  | cons x rest ih =>
    intro seen
    rw [newCount]
    split
    · exact Nat.le_succ_of_le (ih seen)
    · exact Nat.succ_le_succ (ih (seen ++ [x]))

theorem newCount_toFinset {κ : Type} [DecidableEq κ] (xs : List κ) :
    ∀ seen : List κ, newCount xs seen = (xs.toFinset \ seen.toFinset).card := by
  induction xs with
  | nil => intro seen; simp [newCount]
  | cons x rest ih =>
    intro seen
    rw [newCount]
    by_cases hm : x ∈ seen
    · rw [if_pos hm, ih, List.toFinset_cons,
        Finset.insert_sdiff_of_mem _ (List.mem_toFinset.mpr hm)]
    · rw [if_neg hm, ih, List.toFinset_cons,
        Finset.insert_sdiff_of_not_mem _ (fun hc => hm (List.mem_toFinset.mp hc))]
      rw [show (seen ++ [x]).toFinset = insert x seen.toFinset by
        rw [List.toFinset_append]
        simp [Finset.union_comm, Finset.insert_eq]]
      rw [Finset.sdiff_insert]
      by_cases hx : x ∈ rest.toFinset \ seen.toFinset
      · rw [Finset.card_erase_add_one hx,
          Finset.insert_eq_self.mpr hx]
      · rw [Finset.erase_eq_of_not_mem hx,
          Finset.card_insert_of_not_mem hx]

/-- The room-conflict fold of `calculate_fitness`, in closed form:
50 per lecture whose key was already seen. -/
theorem room_fold (xs : List Lecture) :
    ∀ (p : Nat) (seen : List (Option Nat × Nat × Nat)),
      (xs.foldl (fun acc l =>
        let key := lectureKey l
        if key ∈ acc.2 then (acc.1 + 50, acc.2) else (acc.1, acc.2 ++ [key]))
        (p, seen)).1
      = p + 50 * (xs.length - newCount (xs.map lectureKey) seen) := by
  induction xs with
  | nil => intro p seen; simp [newCount]
  | cons x rest ih =>
    intro p seen
    rw [List.foldl_cons, List.map_cons]
    by_cases hm : lectureKey x ∈ seen
    · rw [show (let key := lectureKey x
          if key ∈ seen then (p + 50, seen) else (p, seen ++ [key]))
          = (p + 50, seen) by simp only [if_pos hm]]
      rw [ih, newCount, if_pos hm]
      have h1 := newCount_le_length (rest.map lectureKey) seen
      rw [List.length_map] at h1
      simp only [List.length_cons]
      omega
    · rw [show (let key := lectureKey x
          if key ∈ seen then (p + 50, seen) else (p, seen ++ [key]))
          = (p, seen ++ [lectureKey x]) by simp only [if_neg hm]]
      rw [ih, newCount, if_neg hm]
      have h1 := newCount_le_length (rest.map lectureKey) (seen ++ [lectureKey x])
      rw [List.length_map] at h1
      simp only [List.length_cons]
      omega

/-- Claim C2 (b): 50 per duplicate occurrence of a `(room, day, slot)`
key among the lecture sessions — the number of lectures beyond the
number of distinct keys. -/
def room_conflict_penalty_claimed (ind : Individual) : Nat :=
  50 * (ind.lectures.length - (ind.lectures.map lectureKey).toFinset.card)

/-- C2 (b): the seen-set fold equals the claimed duplicate count. -/
theorem room_conflict_penalty_eq (ind : Individual) :
    room_conflict_penalty ind = room_conflict_penalty_claimed ind := by
  rw [room_conflict_penalty, room_conflict_penalty_claimed,
    room_fold, newCount_toFinset]
  simp

/-! #### Subject-shortfall bridge -/

theorem fold_keyw {α : Type} (key : α → Nat) (w : Nat) (xs : List α) :
    ∀ m : Dict, xs.foldl (fun m x => dbump m (key x) w) m
      = bumpAll (xs.map (fun x => (key x, w))) m := by
  induction xs with
  | nil => intro m; rfl
  | cons x rest ih =>
    intro m
    rw [List.foldl_cons, ih, List.map_cons, bumpAll_cons]

theorem weightSum_map_keyw {α : Type} (key : α → Nat) (w : Nat)
    (xs : List α) (k : Nat) :
    weightSum (xs.map (fun x => (key x, w))) k =
      w * (xs.filter (fun x => key x == k)).length := by
  induction xs with
  | nil => simp [weightSum_nil]
  | cons x rest ih =>
    rw [List.map_cons, weightSum_cons, ih]
    by_cases h : key x = k
    · have hb : (key x == k) = true := beq_iff_eq.mpr h
      rw [if_pos h, show (x :: rest).filter (fun x => key x == k) =
          x :: rest.filter (fun x => key x == k) by simp [List.filter_cons, hb]]
      rw [List.length_cons]
      ring
    · have hb : (key x == k) = false := beq_eq_false_iff_ne.mpr h
      rw [if_neg h, show (x :: rest).filter (fun x => key x == k) =
          rest.filter (fun x => key x == k) by simp [List.filter_cons, hb]]
      omega

/-- Actual lecture count of a subject in a candidate (claim words). -/
def subjectLectureCount (ind : Individual) (sid : Nat) : Nat :=
  (ind.lectures.filter (fun l => l.subject_id == sid)).length

/-- Actual practical hours of a subject in a candidate (claim words):
two hours per scheduled practical. -/
def subjectPracticalHours (ind : Individual) (sid : Nat) : Nat :=
  2 * (ind.practicals.filter (fun p => p.subject_id == sid)).length

theorem dget_subject_lecture_hours (ind : Individual) (sid : Nat) :
    dget (subject_lecture_hours ind) sid = subjectLectureCount ind sid := by
  rw [subject_lecture_hours, fold_keyw, dget_bumpAll, weightSum_map_keyw,
    subjectLectureCount, show dget [] sid = 0 from rfl]
  omega

theorem dget_subject_practical_hours (ind : Individual) (sid : Nat) :
    dget (subject_practical_hours ind) sid = subjectPracticalHours ind sid := by
  rw [subject_practical_hours, fold_keyw, dget_bumpAll, weightSum_map_keyw,
    subjectPracticalHours, show dget [] sid = 0 from rfl]
  omega

/-- Claim C2 (c): per subject assignment, `(required lectures - actual
lectures) * 30` when short plus `(required practical hours - actual
practical hours) * 40` when short. -/
def shortfall_penalty_claimed (ga : GA) (ind : Individual) : Nat :=
  (ga.class_subjects.map (fun cs =>
    (if subjectLectureCount ind cs.subject_id < cs.lecture_slots_per_week then
        (cs.lecture_slots_per_week - subjectLectureCount ind cs.subject_id) * 30
      else 0) +
    (if subjectPracticalHours ind cs.subject_id < cs.practical_slots_per_week * 2 then
        (cs.practical_slots_per_week * 2 - subjectPracticalHours ind cs.subject_id) * 40
      else 0))).sum

/-- C2 (c): the shortfall fold equals the claimed per-subject sum. -/
theorem shortfall_penalty_eq (ga : GA) (ind : Individual) :
    shortfall_penalty ga ind = shortfall_penalty_claimed ga ind := by
  rw [shortfall_penalty, shortfall_penalty_claimed]
  suffices h : ∀ (css : List ClassSubject) (p0 : Nat),
      css.foldl (fun p cs =>
        let required_lecture := cs.lecture_slots_per_week
        let required_practical := cs.practical_slots_per_week * 2
        let actual_lecture := dget (subject_lecture_hours ind) cs.subject_id
        let actual_practical := dget (subject_practical_hours ind) cs.subject_id
        let p := if actual_lecture < required_lecture then
            p + (required_lecture - actual_lecture) * 30 else p
        if actual_practical < required_practical then
          p + (required_practical - actual_practical) * 40 else p) p0
      = p0 + (css.map (fun cs =>
          (if subjectLectureCount ind cs.subject_id < cs.lecture_slots_per_week then
              (cs.lecture_slots_per_week - subjectLectureCount ind cs.subject_id) * 30
            else 0) +
          (if subjectPracticalHours ind cs.subject_id < cs.practical_slots_per_week * 2 then
              (cs.practical_slots_per_week * 2 - subjectPracticalHours ind cs.subject_id) * 40
            else 0))).sum by
    rw [h ga.class_subjects 0, Nat.zero_add]
  intro css
  induction css with
  | nil => intro p0; simp
  | cons cs rest ih =>
    intro p0
    rw [List.foldl_cons, ih, List.map_cons, List.sum_cons]
    rw [dget_subject_lecture_hours, dget_subject_practical_hours]
    by_cases h1 : subjectLectureCount ind cs.subject_id < cs.lecture_slots_per_week <;>
      by_cases h2 : subjectPracticalHours ind cs.subject_id < cs.practical_slots_per_week * 2 <;>
      simp only [h1, h2, if_true, if_false] <;> omega

/-- Claim C2 (d): the missing-mentoring penalty, exactly as claimed. -/
def mentoring_penalty_claimed (ga : GA) (ind : Individual) : Nat :=
  if ind.mentoring.length < (ga.batches.filter (fun b => truthy b.mentor_id)).length then
    ((ga.batches.filter (fun b => truthy b.mentor_id)).length - ind.mentoring.length) * 100
  else 0

theorem mentoring_penalty_eq (ga : GA) (ind : Individual) :
    mentoring_penalty ga ind = mentoring_penalty_claimed ga ind := rfl

/-- The whole fitness formula as claim C2 words it. -/
def fitness_claimed (ga : GA) (ind : Individual) : Int :=
  max ((1000 : Int) -
    (overload_penalty_claimed ind + room_conflict_penalty_claimed ind +
     shortfall_penalty_claimed ga ind + mentoring_penalty_claimed ga ind : Nat)) 0

/-- C2: for every candidate and request, the fitness computed by
`calculate_fitness` equals the reference definition of the claim:
1000 minus the overload, room-duplicate, subject-shortfall and
missing-mentoring penalties, clamped to be at least 0. -/
theorem c2_fitness_formula (ga : GA) (ind : Individual) :
    calculate_fitness ga ind = fitness_claimed ga ind := by
  rw [calculate_fitness, fitness_claimed, overload_penalty_eq,
    room_conflict_penalty_eq, shortfall_penalty_eq, mentoring_penalty_eq]

end Claim2

section Builder

/-- An element drawn by `getD` at an in-range index is in the list. -/
theorem getD_mem {α : Type} (l : List α) (i : Nat) (d : α) (h : i < l.length) :
    l.getD i d ∈ l := by
  rw [List.getD_eq_getElem?_getD, List.getElem?_eq_getElem h]
  exact List.getElem_mem h

/-- A room surviving an occupied-room filtering fold was in the initial
list and clears every filter on the way. -/
theorem mem_filter_fold {β : Type} (cond : β → Bool) (rid : β → Option Nat)
    (xs : List β) :
    ∀ (a : List Room) (r : Room),
      r ∈ xs.foldl (fun acc x =>
        if cond x then acc.filter (fun q => q.id != rid x) else acc) a →
      r ∈ a ∧ ∀ x ∈ xs, cond x = true → r.id ≠ rid x := by
  induction xs with
  | nil =>
    intro a r h
    exact ⟨h, by simp⟩
  | cons x rest ih =>
    intro a r h
    rw [List.foldl_cons] at h
    obtain ⟨h1, h2⟩ := ih _ r h
    by_cases hc : cond x = true
    · rw [if_pos hc] at h1
      obtain ⟨hm, hq⟩ := List.mem_filter.mp h1
      refine ⟨hm, ?_⟩
      intro y hy hcy
      rcases List.mem_cons.mp hy with rfl | hy
      · simpa using hq
      · exact h2 y hy hcy
    · rw [if_neg hc] at h1
      refine ⟨h1, ?_⟩
      intro y hy hcy
      rcases List.mem_cons.mp hy with rfl | hy
      · exact absurd hcy hc
      · exact h2 y hy hcy

/-- What membership in the available-classroom list guarantees: the room
belongs to the inventory and collides with no lecture or mentoring
session already placed at the same `(day, slot)`. -/
theorem mem_available_classrooms (ga : GA) (ind : Individual)
    (day slot_number : Nat) (r : Room)
    (h : r ∈ available_classrooms ga ind day slot_number) :
    r ∈ ga.classrooms ∧
    (∀ l ∈ ind.lectures, l.day = day → l.slot_number = slot_number →
      r.id ≠ l.room_id) ∧
    (∀ m ∈ ind.mentoring, m.day = day → m.slot_number = slot_number →
      r.id ≠ m.room_id) := by
  simp only [available_classrooms] at h
  obtain ⟨h1, h2⟩ := mem_filter_fold
    (fun m : Mentoring => m.day == day && m.slot_number == slot_number)
    (fun m => m.room_id) ind.mentoring _ r h
  obtain ⟨h0, h3⟩ := mem_filter_fold
    (fun l : Lecture => l.day == day && l.slot_number == slot_number)
    (fun l => l.room_id) ind.lectures _ r h1
  refine ⟨h0, ?_, ?_⟩
  · intro l hl hd hs
    exact h3 l hl (by simp [hd, hs])
  · intro m hm hd hs
    exact h2 m hm (by simp [hd, hs])

/-- What membership in the available-lab list guarantees: the room
belongs to the lab inventory and collides with no overlapping practical
already placed on the same day. -/
theorem mem_available_labs (ga : GA) (ind : Individual)
    (day start_slot end_slot : Nat) (r : Room)
    (h : r ∈ available_labs ga ind day start_slot end_slot) :
    r ∈ ga.labs ∧
    ∀ p ∈ ind.practicals, p.day = day →
      ¬(end_slot < p.start_slot ∨ start_slot > p.end_slot) →
      r.id ≠ p.room_id := by
  simp only [available_labs] at h
  obtain ⟨h1, h2⟩ := mem_filter_fold
    (fun p : Practical => p.day == day &&
      !(decide (end_slot < p.start_slot) || decide (start_slot > p.end_slot)))
    (fun p => p.room_id) ind.practicals _ r h
  refine ⟨h1, ?_⟩
  intro p hp hd hov
  apply h2 p hp
  push_neg at hov
  obtain ⟨hb1, hb2⟩ := hov
  have hd1 : decide (end_slot < p.start_slot) = false := by
    simp only [decide_eq_false_iff_not]
    omega
  have hd2 : decide (start_slot > p.end_slot) = false := by
    simp only [decide_eq_false_iff_not]
    omega
  simp [hd, hd1, hd2]

/-- A classroom returned by `find_available_classroom` is in the
available list. -/
theorem find_classroom_mem (ga : GA) (ind : Individual)
    (day slot n : Nat) (room : Room)
    (h : find_available_classroom ga ind day slot n = some room) :
    room ∈ available_classrooms ga ind day slot := by
  simp only [find_available_classroom] at h
  split at h
  · cases h
  · split at h
    · cases h
    · rename_i hne
      injection h with h
      subst h
      have hlen : 0 < (available_classrooms ga ind day slot).length := by
        cases hq : available_classrooms ga ind day slot with
        | nil => rw [hq] at hne; simp at hne
        | cons a as => simp [hq]
      exact getD_mem _ _ _ (Nat.mod_lt _ hlen)

/-- A lab returned by `find_available_lab` is in the available list. -/
theorem find_lab_mem (ga : GA) (ind : Individual)
    (day start_slot end_slot n : Nat) (room : Room)
    (h : find_available_lab ga ind day start_slot end_slot n = some room) :
    room ∈ available_labs ga ind day start_slot end_slot := by
  simp only [find_available_lab] at h
  split at h
  · cases h
  · split at h
    · cases h
    · rename_i hne
      injection h with h
      subst h
      have hlen : 0 < (available_labs ga ind day start_slot end_slot).length := by
        cases hq : available_labs ga ind day start_slot end_slot with
        | nil => rw [hq] at hne; simp at hne
        | cons a as => simp [hq]
      exact getD_mem _ _ _ (Nat.mod_lt _ hlen)

/-- Number of sessions of faculty `f` (denormalised reference) that
occupy `(day, slot)`, mirroring the three checks of
`check_faculty_busy`. -/
def faculty_sessions (ind : Individual) (f day slot_number : Nat) : Nat :=
  (ind.lectures.filter (fun l =>
    l.faculty_id == some f && l.day == day &&
    l.slot_number == slot_number)).length +
  (ind.practicals.filter (fun p =>
    p.faculty_id == some f && p.day == day &&
    decide (p.start_slot ≤ slot_number) &&
    decide (slot_number ≤ p.end_slot))).length +
  (ind.mentoring.filter (fun m =>
    m.faculty_id == some f && m.day == day &&
    m.slot_number == slot_number)).length

/-- The faculty double-booking freedom that `check_faculty_busy`
enforces: no (real) faculty id has two sessions at one slot. -/
def FacultyOk (ind : Individual) : Prop :=
  ∀ f day slot_number, f ≠ 0 → faculty_sessions ind f day slot_number ≤ 1

/-- If `check_faculty_busy` reports free, the faculty occupies nothing
at that slot. -/
theorem busy_false_sessions_zero (ind : Individual) (f day slot_number : Nat)
    (hf : f ≠ 0)
    (h : check_faculty_busy ind (some f) day slot_number = false) :
    faculty_sessions ind f day slot_number = 0 := by
  have ht : truthy (some f) = true := by simp [truthy, hf]
  simp only [check_faculty_busy, ht, Bool.not_true, Bool.false_eq_true,
    if_false, Bool.or_eq_false_iff, List.any_eq_false] at h
  obtain ⟨⟨h1, h2⟩, h3⟩ := h
  rw [faculty_sessions,
    List.filter_eq_nil_iff.mpr (fun l hl => by simpa using h1 l hl),
    List.filter_eq_nil_iff.mpr (fun p hp => by simpa using h2 p hp),
    List.filter_eq_nil_iff.mpr (fun m hm => by simpa using h3 m hm)]
  rfl

theorem length_filter_append_singleton {α : Type} (p : α → Bool)
    (xs : List α) (x : α) :
    ((xs ++ [x]).filter p).length =
      (xs.filter p).length + (if p x then 1 else 0) := by
  rw [List.filter_append]
  by_cases h : p x = true <;> simp [List.filter_cons, h]

theorem facultyOk_add_lecture (ind : Individual) (cs : ClassSubject)
    (room : Room) (day slot_number : Nat) (hok : FacultyOk ind)
    (h : check_faculty_busy ind cs.faculty_id day slot_number = false) :
    FacultyOk ⟨ind.lectures ++ [mkLecture cs room day slot_number],
      ind.practicals, ind.mentoring⟩ := by
  intro f d s hf
  have hsplit : faculty_sessions
      ⟨ind.lectures ++ [mkLecture cs room day slot_number],
        ind.practicals, ind.mentoring⟩ f d s
      = faculty_sessions ind f d s +
        (if cs.faculty_id == some f && day == d && slot_number == s
          then 1 else 0) := by
    simp only [faculty_sessions, length_filter_append_singleton, mkLecture]
    omega
  rw [hsplit]
  by_cases hc : (cs.faculty_id == some f && day == d && slot_number == s) = true
  · obtain ⟨⟨hc1, hc2⟩, hc3⟩ := by simpa [Bool.and_eq_true] using hc
    have hzero : faculty_sessions ind f d s = 0 := by
      have h2 : check_faculty_busy ind (some f) d s = false := by
        rw [← hc1, ← hc2, ← hc3]
        exact h
      exact busy_false_sessions_zero ind f d s hf h2
    rw [hzero, hc]
    simp
  · rw [if_neg hc]
    have := hok f d s hf
    omega

theorem facultyOk_add_practical (ind : Individual) (cs : ClassSubject)
    (batch : Batch) (room : Room) (day s0 : Nat) (hok : FacultyOk ind)
    (h1 : check_faculty_busy ind cs.faculty_id day s0 = false)
    (h2 : check_faculty_busy ind cs.faculty_id day (s0 + 1) = false) :
    FacultyOk ⟨ind.lectures,
      ind.practicals ++ [mkPractical cs batch room day s0 (s0 + 1)],
      ind.mentoring⟩ := by
  intro f d s hf
  have hsplit : faculty_sessions
      ⟨ind.lectures,
        ind.practicals ++ [mkPractical cs batch room day s0 (s0 + 1)],
        ind.mentoring⟩ f d s
      = faculty_sessions ind f d s +
        (if cs.faculty_id == some f && day == d &&
            decide (s0 ≤ s) && decide (s ≤ s0 + 1) then 1 else 0) := by
    simp only [faculty_sessions, length_filter_append_singleton, mkPractical]
    omega
  rw [hsplit]
  by_cases hc : (cs.faculty_id == some f && day == d &&
      decide (s0 ≤ s) && decide (s ≤ s0 + 1)) = true
  · obtain ⟨⟨⟨hc1, hc2⟩, hc3⟩, hc4⟩ := by simpa [Bool.and_eq_true] using hc
    have hs : s = s0 ∨ s = s0 + 1 := by omega
    have hzero : faculty_sessions ind f d s = 0 := by
      have hfb : check_faculty_busy ind (some f) d s = false := by
        rcases hs with rfl | rfl
        · rw [← hc1, ← hc2]
          exact h1
        · rw [← hc1, ← hc2]
          exact h2
      exact busy_false_sessions_zero ind f d s hf hfb
    rw [hzero, hc]
    simp
  · rw [if_neg hc]
    have := hok f d s hf
    omega

theorem facultyOk_add_mentoring (ind : Individual) (batch : Batch)
    (room : Room) (day slot_number : Nat) (hok : FacultyOk ind)
    (h : check_faculty_busy ind batch.mentor_id day slot_number = false) :
    FacultyOk ⟨ind.lectures, ind.practicals,
      ind.mentoring ++ [mkMentoring batch room day slot_number]⟩ := by
  intro f d s hf
  have hsplit : faculty_sessions
      ⟨ind.lectures, ind.practicals,
        ind.mentoring ++ [mkMentoring batch room day slot_number]⟩ f d s
      = faculty_sessions ind f d s +
        (if batch.mentor_id == some f && day == d && slot_number == s
          then 1 else 0) := by
    simp only [faculty_sessions, length_filter_append_singleton, mkMentoring]
    omega
  rw [hsplit]
  by_cases hc : (batch.mentor_id == some f && day == d && slot_number == s) = true
  · obtain ⟨⟨hc1, hc2⟩, hc3⟩ := by simpa [Bool.and_eq_true] using hc
    have hzero : faculty_sessions ind f d s = 0 := by
      have hfb : check_faculty_busy ind (some f) d s = false := by
        rw [← hc1, ← hc2, ← hc3]
        exact h
      exact busy_false_sessions_zero ind f d s hf hfb
    rw [hzero, hc]
    simp
  · rw [if_neg hc]
    have := hok f d s hf
    omega

/-- The `(room, day, slot)` key of a mentoring session. -/
def mentoringKey (m : Mentoring) : Option Nat × Nat × Nat :=
  (m.room_id, m.day, m.slot_number)

/-- All classroom occupancy keys of a candidate: lectures and mentoring
sessions (the two session kinds that `find_available_classroom`
checks). -/
def classroomKeys (ind : Individual) : List (Option Nat × Nat × Nat) :=
  ind.lectures.map lectureKey ++ ind.mentoring.map mentoringKey

/-- Classroom conflict freedom: no two classroom-type sessions share a
`(room, day, slot)` key. -/
def RoomsOk (ind : Individual) : Prop := (classroomKeys ind).Nodup

/-- Lab conflict freedom: practicals in the same room on the same day
have non-overlapping slot ranges (in the half-open sense of
`find_available_lab`). -/
def LabsOk (ind : Individual) : Prop :=
  ind.practicals.Pairwise (fun p q =>
    p.room_id = q.room_id → p.day = q.day →
    q.end_slot < p.start_slot ∨ q.start_slot > p.end_slot)

/-- The lunch-slot discipline of the builder: lectures and mentoring
sessions avoid slot 2 and practicals sit in the 4-5 or 5-6 window. -/
def NoLunch (ind : Individual) : Prop :=
  (∀ l ∈ ind.lectures, l.slot_number ≠ 2) ∧
  (∀ p ∈ ind.practicals,
    (p.start_slot = 4 ∧ p.end_slot = 5) ∨ (p.start_slot = 5 ∧ p.end_slot = 6)) ∧
  (∀ m ∈ ind.mentoring, m.slot_number ≠ 2)

/-- Everything the builder's own checks maintain. -/
def BuilderInv (ind : Individual) : Prop :=
  FacultyOk ind ∧ RoomsOk ind ∧ LabsOk ind ∧ NoLunch ind

theorem builderInv_empty : BuilderInv emptyIndividual := by
  refine ⟨?_, ?_, ?_, ?_⟩
  · intro f d s hf
    simp [faculty_sessions, emptyIndividual]
  · simp [RoomsOk, classroomKeys, emptyIndividual]
  · simp [LabsOk, emptyIndividual]
  · refine ⟨?_, ?_, ?_⟩ <;> simp [emptyIndividual]

theorem roomsOk_add_lecture (ga : GA) (ind : Individual) (cs : ClassSubject)
    (room : Room) (day slot_number : Nat) (hok : RoomsOk ind)
    (hroom : room ∈ available_classrooms ga ind day slot_number) :
    RoomsOk ⟨ind.lectures ++ [mkLecture cs room day slot_number],
      ind.practicals, ind.mentoring⟩ := by
  obtain ⟨_, hl, hm⟩ := mem_available_classrooms ga ind day slot_number room hroom
  rw [RoomsOk, classroomKeys] at hok ⊢
  simp only [List.map_append, List.map_singleton]
  rw [List.append_assoc, List.singleton_append,
    (List.perm_middle).nodup_iff, List.nodup_cons]
  refine ⟨?_, hok⟩
  intro hmem
  rcases List.mem_append.mp hmem with hmem | hmem
  · obtain ⟨l, hlm, hkey⟩ := List.mem_map.mp hmem
    have h1 : l.room_id = room.id := congrArg Prod.fst hkey
    have h2 : l.day = day := congrArg (fun k => k.2.1) hkey
    have h3 : l.slot_number = slot_number := congrArg (fun k => k.2.2) hkey
    exact hl l hlm h2 h3 h1.symm
  · obtain ⟨m, hmm, hkey⟩ := List.mem_map.mp hmem
    have h1 : m.room_id = room.id := congrArg Prod.fst hkey
    have h2 : m.day = day := congrArg (fun k => k.2.1) hkey
    have h3 : m.slot_number = slot_number := congrArg (fun k => k.2.2) hkey
    exact hm m hmm h2 h3 h1.symm

theorem roomsOk_add_mentoring (ga : GA) (ind : Individual) (batch : Batch)
    (room : Room) (day slot_number : Nat) (hok : RoomsOk ind)
    (hroom : room ∈ available_classrooms ga ind day slot_number) :
    RoomsOk ⟨ind.lectures, ind.practicals,
      ind.mentoring ++ [mkMentoring batch room day slot_number]⟩ := by
  obtain ⟨_, hl, hm⟩ := mem_available_classrooms ga ind day slot_number room hroom
  rw [RoomsOk, classroomKeys] at hok ⊢
  simp only [List.map_append, List.map_singleton]
  rw [← List.append_assoc, List.nodup_append]
  rw [List.nodup_append] at hok
  obtain ⟨hok1, hok2, hok3⟩ := hok
  refine ⟨List.Nodup.append hok1 hok2 hok3, by simp, ?_⟩
  intro k hk
  rcases List.mem_append.mp hk with hmem | hmem
  · obtain ⟨l, hlm, hkey⟩ := List.mem_map.mp hmem
    simp only [List.mem_singleton]
    intro hc
    rw [hc] at hkey
    have h1 : l.room_id = room.id := congrArg Prod.fst hkey
    have h2 : l.day = day := congrArg (fun k => k.2.1) hkey
    have h3 : l.slot_number = slot_number := congrArg (fun k => k.2.2) hkey
    exact hl l hlm h2 h3 h1.symm
  · obtain ⟨m, hmm, hkey⟩ := List.mem_map.mp hmem
    simp only [List.mem_singleton]
    intro hc
    rw [hc] at hkey
    have h1 : m.room_id = room.id := congrArg Prod.fst hkey
    have h2 : m.day = day := congrArg (fun k => k.2.1) hkey
    have h3 : m.slot_number = slot_number := congrArg (fun k => k.2.2) hkey
    exact hm m hmm h2 h3 h1.symm

theorem labsOk_add_practical (ga : GA) (ind : Individual) (cs : ClassSubject)
    (batch : Batch) (room : Room) (day s0 e0 : Nat) (hok : LabsOk ind)
    (hroom : room ∈ available_labs ga ind day s0 e0) :
    LabsOk ⟨ind.lectures,
      ind.practicals ++ [mkPractical cs batch room day s0 e0],
      ind.mentoring⟩ := by
  obtain ⟨_, hfree⟩ := mem_available_labs ga ind day s0 e0 room hroom
  rw [LabsOk]
  rw [List.pairwise_append]
  refine ⟨hok, by simp, ?_⟩
  intro p hp q hq
  simp only [List.mem_singleton] at hq
  subst hq
  intro hrid hday
  simp only [mkPractical] at hrid hday ⊢
  by_contra hcon
  push_neg at hcon
  exact hfree p hp hday (by omega) (hrid ▸ rfl)

/-- What a successful lecture attempt guarantees: it commits exactly one
lecture, at a drawn day and non-lunch slot where the subject's faculty
was checked free and the classroom came from the availability filter. -/
theorem lecture_attempt_commit (ga : GA) (cs : ClassSubject)
    (ind ind2 : Individual) (ch ch2 : List Nat)
    (h : lecture_attempt ga cs ind ch = (some ind2, ch2)) :
    ∃ day slot room,
      day < days.length ∧ slot ∈ lecture_slots ∧ slot ≠ 2 ∧
      check_faculty_busy ind cs.faculty_id day slot = false ∧
      room ∈ available_classrooms ga ind day slot ∧
      ind2 = ⟨ind.lectures ++ [mkLecture cs room day slot],
        ind.practicals, ind.mentoring⟩ := by
  simp only [lecture_attempt, draw] at h
  split at h
  · simp at h
  · rename_i hbusy
    split at h
    · simp at h
    · rename_i hfree
      split at h
      · simp at h
      · rename_i room hfind
        rw [Prod.mk.injEq] at h
        obtain ⟨h1, _⟩ := h
        injection h1 with h1
        refine ⟨ch.headD 0 % days.length,
          lecture_slots.getD (ch.tail.headD 0 % lecture_slots.length) 0,
          room, ?_, ?_, ?_, ?_, ?_, h1.symm⟩
        · exact Nat.mod_lt _ (by simp [days])
        · exact getD_mem _ _ _ (Nat.mod_lt _ (by simp [lecture_slots]))
        · simpa using hbusy
        · simpa using hfree
        · exact find_classroom_mem _ _ _ _ _ _ hfind

/-- What a successful practical attempt guarantees. -/
theorem practical_attempt_commit (ga : GA) (cs : ClassSubject) (batch : Batch)
    (ind ind2 : Individual) (ch ch2 : List Nat)
    (h : practical_attempt ga cs batch ind ch = (some ind2, ch2)) :
    ∃ day s0 room,
      day < days.length ∧ (s0 = 4 ∨ s0 = 5) ∧
      check_faculty_busy ind cs.faculty_id day s0 = false ∧
      check_faculty_busy ind cs.faculty_id day (s0 + 1) = false ∧
      room ∈ available_labs ga ind day s0 (s0 + 1) ∧
      ind2 = ⟨ind.lectures,
        ind.practicals ++ [mkPractical cs batch room day s0 (s0 + 1)],
        ind.mentoring⟩ := by
  simp only [practical_attempt, draw] at h
  split at h
  · simp at h
  · split at h
    · simp at h
    · rename_i hbusy
      split at h
      · simp at h
      · rename_i room hfind
        rw [Prod.mk.injEq] at h
        obtain ⟨h1, _⟩ := h
        injection h1 with h1
        have hfree : check_faculty_busy ind cs.faculty_id
              (ch.headD 0 % days.length) ([4, 5].getD (ch.tail.headD 0 % 2) 4)
                = false ∧
            check_faculty_busy ind cs.faculty_id
              (ch.headD 0 % days.length)
              ([4, 5].getD (ch.tail.headD 0 % 2) 4 + 1) = false := by
          simpa [Bool.or_eq_false_iff] using hbusy
        refine ⟨ch.headD 0 % days.length,
          [4, 5].getD (ch.tail.headD 0 % 2) 4, room,
          ?_, ?_, hfree.1, hfree.2, ?_, h1.symm⟩
        · exact Nat.mod_lt _ (by simp [days])
        · have := getD_mem [4, 5] (ch.tail.headD 0 % 2) 4
            (Nat.mod_lt _ (by simp))
          simpa using this
        · exact find_lab_mem _ _ _ _ _ _ _ hfind

/-- What a successful mentoring attempt guarantees. -/
theorem mentoring_attempt_commit (ga : GA) (batch : Batch)
    (ind ind2 : Individual) (ch ch2 : List Nat)
    (h : mentoring_attempt ga batch ind ch = (some ind2, ch2)) :
    ∃ day slot room,
      day < days.length ∧ slot ∈ lecture_slots ∧ slot ≠ 2 ∧
      check_faculty_busy ind batch.mentor_id day slot = false ∧
      room ∈ available_classrooms ga ind day slot ∧
      ind2 = ⟨ind.lectures, ind.practicals,
        ind.mentoring ++ [mkMentoring batch room day slot]⟩ := by
  simp only [mentoring_attempt, draw] at h
  split at h
  · simp at h
  · rename_i hlunch
    split at h
    · simp at h
    · rename_i hbusy
      split at h
      · simp at h
      · rename_i room hfind
        rw [Prod.mk.injEq] at h
        obtain ⟨h1, _⟩ := h
        injection h1 with h1
        refine ⟨ch.headD 0 % days.length,
          lecture_slots.getD (ch.tail.headD 0 % lecture_slots.length) 0,
          room, ?_, ?_, ?_, ?_, ?_, h1.symm⟩
        · exact Nat.mod_lt _ (by simp [days])
        · exact getD_mem _ _ _ (Nat.mod_lt _ (by simp [lecture_slots]))
        · simpa using hlunch
        · simpa using hbusy
        · exact find_classroom_mem _ _ _ _ _ _ hfind

/-- Any property preserved by committed lecture attempts survives the
whole lecture loop. -/
theorem schedule_lectures_pres (ga : GA) (cs : ClassSubject)
    (P : Individual → Prop)
    (hstep : ∀ ind ind2 ch ch2, P ind →
      lecture_attempt ga cs ind ch = (some ind2, ch2) → P ind2) :
    ∀ fuel r ind ch ind2 ch2, P ind →
      schedule_lectures ga cs fuel r ind ch = some (ind2, ch2) → P ind2 := by
  intro fuel
  induction fuel with
  | zero =>
    intro r ind ch ind2 ch2 hP h
    cases r with
    | zero =>
      rw [show schedule_lectures ga cs 0 0 ind ch = some (ind, ch) from rfl] at h
      injection h with h
      injection h with h1 h2
      subst h1
      exact hP
    | succ r =>
      rw [show schedule_lectures ga cs 0 (r + 1) ind ch = none from rfl] at h
      cases h
  | succ fuel ih =>
    intro r ind ch ind2 ch2 hP h
    cases r with
    | zero =>
      rw [show schedule_lectures ga cs (fuel + 1) 0 ind ch = some (ind, ch)
        from rfl] at h
      injection h with h
      injection h with h1 h2
      subst h1
      exact hP
    | succ r =>
      have hd : schedule_lectures ga cs (fuel + 1) (r + 1) ind ch
          = match lecture_attempt ga cs ind ch with
            | (none, ch2) => schedule_lectures ga cs fuel (r + 1) ind ch2
            | (some ind3, ch2) => schedule_lectures ga cs fuel r ind3 ch2 := rfl
      rw [hd] at h
      cases hA : lecture_attempt ga cs ind ch with
      | mk o ch3 =>
        rw [hA] at h
        cases o with
        | none => exact ih (r + 1) ind ch3 ind2 ch2 hP h
        | some ind3 =>
          exact ih r ind3 ch3 ind2 ch2 (hstep ind ind3 ch ch3 hP hA) h

/-- Any property preserved by committed practical attempts survives the
whole practical loop. -/
theorem schedule_practicals_pres (ga : GA) (cs : ClassSubject) (batch : Batch)
    (P : Individual → Prop)
    (hstep : ∀ ind ind2 ch ch2, P ind →
      practical_attempt ga cs batch ind ch = (some ind2, ch2) → P ind2) :
    ∀ fuel r ind ch ind2 ch2, P ind →
      schedule_practicals ga cs batch fuel r ind ch = some (ind2, ch2) → P ind2 := by
  intro fuel
  induction fuel with
  | zero =>
    intro r ind ch ind2 ch2 hP h
    cases r with
    | zero =>
      rw [show schedule_practicals ga cs batch 0 0 ind ch = some (ind, ch)
        from rfl] at h
      injection h with h
      injection h with h1 h2
      subst h1
      exact hP
    | succ r =>
      rw [show schedule_practicals ga cs batch 0 (r + 1) ind ch = none
        from rfl] at h
      cases h
  | succ fuel ih =>
    intro r ind ch ind2 ch2 hP h
    cases r with
    | zero =>
      rw [show schedule_practicals ga cs batch (fuel + 1) 0 ind ch
        = some (ind, ch) from rfl] at h
      injection h with h
      injection h with h1 h2
      subst h1
      exact hP
    | succ r =>
      have hd : schedule_practicals ga cs batch (fuel + 1) (r + 1) ind ch
          = match practical_attempt ga cs batch ind ch with
            | (none, ch2) => schedule_practicals ga cs batch fuel (r + 1) ind ch2
            | (some ind3, ch2) => schedule_practicals ga cs batch fuel r ind3 ch2 := rfl
      rw [hd] at h
      cases hA : practical_attempt ga cs batch ind ch with
      | mk o ch3 =>
        rw [hA] at h
        cases o with
        | none => exact ih (r + 1) ind ch3 ind2 ch2 hP h
        | some ind3 =>
          exact ih r ind3 ch3 ind2 ch2 (hstep ind ind3 ch ch3 hP hA) h

/-- Any property preserved by committed mentoring attempts survives the
bounded mentoring retry loop. -/
theorem schedule_mentoring_tries_pres (ga : GA) (batch : Batch)
    (P : Individual → Prop)
    (hstep : ∀ ind ind2 ch ch2, P ind →
      mentoring_attempt ga batch ind ch = (some ind2, ch2) → P ind2) :
    ∀ t ind ch, P ind → P (schedule_mentoring_tries ga batch t ind ch).1 := by
  intro t
  induction t with
  | zero => intro ind ch hP; exact hP
  | succ t ih =>
    intro ind ch hP
    rw [schedule_mentoring_tries]
    cases hA : mentoring_attempt ga batch ind ch with
    | mk o ch3 =>
      cases o with
      | none => exact ih ind ch3 hP
      | some ind3 => exact hstep ind ind3 ch ch3 hP hA

/-- Lift lecture-loop preservation over all class subjects. -/
theorem schedule_all_lectures_pres (ga : GA) (P : Individual → Prop)
    (hstep : ∀ cs ind ind2 ch ch2, P ind →
      lecture_attempt ga cs ind ch = (some ind2, ch2) → P ind2) :
    ∀ css fuel ind ch ind2 ch2, P ind →
      schedule_all_lectures ga fuel css ind ch = some (ind2, ch2) → P ind2 := by
  intro css
  induction css with
  | nil =>
    intro fuel ind ch ind2 ch2 hP h
    injection h with h
    injection h with h1 h2
    subst h1
    exact hP
  | cons cs rest ih =>
    intro fuel ind ch ind2 ch2 hP h
    have hd : schedule_all_lectures ga fuel (cs :: rest) ind ch
        = match schedule_lectures ga cs fuel cs.lecture_slots_per_week ind ch with
          | none => none
          | some (ind3, ch3) => schedule_all_lectures ga fuel rest ind3 ch3 := rfl
    rw [hd] at h
    cases hS : schedule_lectures ga cs fuel cs.lecture_slots_per_week ind ch with
    | none => rw [hS] at h; cases h
    | some out =>
      obtain ⟨ind3, ch3⟩ := out
      rw [hS] at h
      exact ih fuel ind3 ch3 ind2 ch2
        (schedule_lectures_pres ga cs P (hstep cs) fuel _ ind ch ind3 ch3 hP hS) h

/-- Lift practical-loop preservation over the subjects of one batch. -/
theorem schedule_batch_practicals_pres (ga : GA) (batch : Batch)
    (P : Individual → Prop)
    (hstep : ∀ cs ind ind2 ch ch2, P ind →
      practical_attempt ga cs batch ind ch = (some ind2, ch2) → P ind2) :
    ∀ css fuel ind ch ind2 ch2, P ind →
      schedule_batch_practicals ga batch fuel css ind ch = some (ind2, ch2) →
      P ind2 := by
  intro css
  induction css with
  | nil =>
    intro fuel ind ch ind2 ch2 hP h
    injection h with h
    injection h with h1 h2
    subst h1
    exact hP
  | cons cs rest ih =>
    intro fuel ind ch ind2 ch2 hP h
    have hd : schedule_batch_practicals ga batch fuel (cs :: rest) ind ch
        = match schedule_practicals ga cs batch fuel
            cs.practical_slots_per_week ind ch with
          | none => none
          | some (ind3, ch3) => schedule_batch_practicals ga batch fuel rest ind3 ch3 := rfl
    rw [hd] at h
    cases hS : schedule_practicals ga cs batch fuel
        cs.practical_slots_per_week ind ch with
    | none => rw [hS] at h; cases h
    | some out =>
      obtain ⟨ind3, ch3⟩ := out
      rw [hS] at h
      exact ih fuel ind3 ch3 ind2 ch2
        (schedule_practicals_pres ga cs batch P (hstep cs) fuel _ ind ch
          ind3 ch3 hP hS) h

/-- Lift practical-loop preservation over all batches. -/
theorem schedule_all_practicals_pres (ga : GA) (P : Individual → Prop)
    (hstep : ∀ cs batch ind ind2 ch ch2, P ind →
      practical_attempt ga cs batch ind ch = (some ind2, ch2) → P ind2) :
    ∀ bs fuel ind ch ind2 ch2, P ind →
      schedule_all_practicals ga fuel bs ind ch = some (ind2, ch2) → P ind2 := by
  intro bs
  induction bs with
  | nil =>
    intro fuel ind ch ind2 ch2 hP h
    injection h with h
    injection h with h1 h2
    subst h1
    exact hP
  | cons b rest ih =>
    intro fuel ind ch ind2 ch2 hP h
    have hd : schedule_all_practicals ga fuel (b :: rest) ind ch
        = match schedule_batch_practicals ga b fuel ga.class_subjects ind ch with
          | none => none
          | some (ind3, ch3) => schedule_all_practicals ga fuel rest ind3 ch3 := rfl
    rw [hd] at h
    cases hS : schedule_batch_practicals ga b fuel ga.class_subjects ind ch with
    | none => rw [hS] at h; cases h
    | some out =>
      obtain ⟨ind3, ch3⟩ := out
      rw [hS] at h
      exact ih fuel ind3 ch3 ind2 ch2
        (schedule_batch_practicals_pres ga b P (fun cs => hstep cs b) _ fuel
          ind ch ind3 ch3 hP hS) h

/-- Lift mentoring preservation over all batches. -/
theorem schedule_all_mentoring_pres (ga : GA) (P : Individual → Prop)
    (hstep : ∀ b ind ind2 ch ch2, P ind →
      mentoring_attempt ga b ind ch = (some ind2, ch2) → P ind2) :
    ∀ bs ind ch, P ind → P (schedule_all_mentoring ga bs ind ch).1 := by
  intro bs
  induction bs with
  | nil => intro ind ch hP; exact hP
  | cons b rest ih =>
    intro ind ch hP
    rw [schedule_all_mentoring]
    split
    · cases hT : schedule_mentoring_tries ga b 20 ind ch with
      | mk ind3 ch3 =>
        have h3 : P ind3 := by
          have := schedule_mentoring_tries_pres ga b P (hstep b) 20 ind ch hP
          rw [hT] at this
          exact this
        exact ih ind3 ch3 h3
    · exact ih ind ch hP

theorem builderInv_lecture_step (ga : GA) (cs : ClassSubject)
    (ind ind2 : Individual) (ch ch2 : List Nat) (hP : BuilderInv ind)
    (hA : lecture_attempt ga cs ind ch = (some ind2, ch2)) :
    BuilderInv ind2 := by
  obtain ⟨day, slot, room, hday, hslot, hs2, hbusy, havail, rfl⟩ :=
    lecture_attempt_commit ga cs ind ind2 ch ch2 hA
  obtain ⟨hF, hR, hL, hN⟩ := hP
  refine ⟨facultyOk_add_lecture _ _ _ _ _ hF hbusy,
    roomsOk_add_lecture ga _ _ _ _ _ hR havail, hL, ?_, hN.2.1, hN.2.2⟩
  intro l hl
  rcases List.mem_append.mp hl with hl | hl
  · exact hN.1 l hl
  · rw [List.mem_singleton] at hl
    subst hl
    simpa [mkLecture] using hs2

theorem builderInv_practical_step (ga : GA) (cs : ClassSubject) (batch : Batch)
    (ind ind2 : Individual) (ch ch2 : List Nat) (hP : BuilderInv ind)
    (hA : practical_attempt ga cs batch ind ch = (some ind2, ch2)) :
    BuilderInv ind2 := by
  obtain ⟨day, s0, room, hday, hs0, hb1, hb2, havail, rfl⟩ :=
    practical_attempt_commit ga cs batch ind ind2 ch ch2 hA
  obtain ⟨hF, hR, hL, hN⟩ := hP
  refine ⟨facultyOk_add_practical _ _ _ _ _ _ hF hb1 hb2, hR,
    labsOk_add_practical ga _ _ _ _ _ _ _ hL havail, hN.1, ?_, hN.2.2⟩
  intro p hp
  rcases List.mem_append.mp hp with hp | hp
  · exact hN.2.1 p hp
  · rw [List.mem_singleton] at hp
    subst hp
    rcases hs0 with rfl | rfl
    · exact Or.inl (by simp [mkPractical])
    · exact Or.inr (by simp [mkPractical])

theorem builderInv_mentoring_step (ga : GA) (batch : Batch)
    (ind ind2 : Individual) (ch ch2 : List Nat) (hP : BuilderInv ind)
    (hA : mentoring_attempt ga batch ind ch = (some ind2, ch2)) :
    BuilderInv ind2 := by
  obtain ⟨day, slot, room, hday, hslot, hs2, hbusy, havail, rfl⟩ :=
    mentoring_attempt_commit ga batch ind ind2 ch ch2 hA
  obtain ⟨hF, hR, hL, hN⟩ := hP
  refine ⟨facultyOk_add_mentoring _ _ _ _ _ hF hbusy,
    roomsOk_add_mentoring ga _ _ _ _ _ hR havail, hL, hN.1, hN.2.1, ?_⟩
  intro m hm
  rcases List.mem_append.mp hm with hm | hm
  · exact hN.2.2 m hm
  · rw [List.mem_singleton] at hm
    subst hm
    simpa [mkMentoring] using hs2

/-- Every candidate returned by `create_individual` satisfies the
builder invariant: faculty, classroom and lab conflict freedom and the
lunch-slot discipline. -/
theorem create_individual_inv (ga : GA) (fuel : Nat) (ch : List Nat)
    (ind : Individual) (ch2 : List Nat)
    (h : create_individual ga fuel ch = some (ind, ch2)) : BuilderInv ind := by
  rw [create_individual] at h
  cases hL : schedule_all_lectures ga fuel ga.class_subjects emptyIndividual ch with
  | none => rw [hL] at h; cases h
  | some outL =>
    obtain ⟨indL, chL⟩ := outL
    rw [hL] at h
    have h2 : (match schedule_all_practicals ga fuel ga.batches indL chL with
        | none => none
        | some (ind3, ch3) =>
          some (schedule_all_mentoring ga ga.batches ind3 ch3))
        = some (ind, ch2) := h
    have hInvL : BuilderInv indL :=
      schedule_all_lectures_pres ga BuilderInv
        (fun cs i1 i2 c1 c2 hp ha => builderInv_lecture_step ga cs i1 i2 c1 c2 hp ha)
        ga.class_subjects fuel emptyIndividual ch indL chL builderInv_empty hL
    cases hPr : schedule_all_practicals ga fuel ga.batches indL chL with
    | none => rw [hPr] at h2; cases h2
    | some outP =>
      obtain ⟨indP, chP⟩ := outP
      rw [hPr] at h2
      have hInvP : BuilderInv indP :=
        schedule_all_practicals_pres ga BuilderInv
          (fun cs b i1 i2 c1 c2 hp ha =>
            builderInv_practical_step ga cs b i1 i2 c1 c2 hp ha)
          ga.batches fuel indL chL indP chP hInvL hPr
      have hInvM : BuilderInv (schedule_all_mentoring ga ga.batches indP chP).1 :=
        schedule_all_mentoring_pres ga BuilderInv
          (fun b i1 i2 c1 c2 hp ha =>
            builderInv_mentoring_step ga b i1 i2 c1 c2 hp ha)
          ga.batches indP chP hInvP
      have h3 : some (schedule_all_mentoring ga ga.batches indP chP)
          = some (ind, ch2) := h2
      injection h3 with h3
      rw [h3] at hInvM
      exact hInvM

/-- The lecture loop returns only after committing exactly `r` new
lectures; it has no skip path. -/
theorem schedule_lectures_count (ga : GA) (cs : ClassSubject) :
    ∀ fuel r ind ch ind2 ch2,
      schedule_lectures ga cs fuel r ind ch = some (ind2, ch2) →
      ind2.lectures.length = ind.lectures.length + r ∧
      ind2.practicals = ind.practicals ∧ ind2.mentoring = ind.mentoring := by
  intro fuel
  induction fuel with
  | zero =>
    intro r ind ch ind2 ch2 h
    cases r with
    | zero =>
      rw [show schedule_lectures ga cs 0 0 ind ch = some (ind, ch) from rfl] at h
      injection h with h
      injection h with h1 h2
      subst h1
      exact ⟨rfl, rfl, rfl⟩
    | succ r =>
      rw [show schedule_lectures ga cs 0 (r + 1) ind ch = none from rfl] at h
      cases h
  | succ fuel ih =>
    intro r ind ch ind2 ch2 h
    cases r with
    | zero =>
      rw [show schedule_lectures ga cs (fuel + 1) 0 ind ch = some (ind, ch)
        from rfl] at h
      injection h with h
      injection h with h1 h2
      subst h1
      exact ⟨rfl, rfl, rfl⟩
    | succ r =>
      have hd : schedule_lectures ga cs (fuel + 1) (r + 1) ind ch
          = match lecture_attempt ga cs ind ch with
            | (none, ch2) => schedule_lectures ga cs fuel (r + 1) ind ch2
            | (some ind3, ch2) => schedule_lectures ga cs fuel r ind3 ch2 := rfl
      rw [hd] at h
      cases hA : lecture_attempt ga cs ind ch with
      | mk o ch3 =>
        rw [hA] at h
        cases o with
        | none => exact ih (r + 1) ind ch3 ind2 ch2 h
        | some ind3 =>
          obtain ⟨hc1, hc2, hc3⟩ := ih r ind3 ch3 ind2 ch2 h
          obtain ⟨day, slot, room, _, _, _, _, _, rfl⟩ :=
            lecture_attempt_commit ga cs ind ind3 ch ch3 hA
          refine ⟨?_, hc2, hc3⟩
          simp only [List.length_append, List.length_singleton] at hc1
          omega

/-- The practical loop returns only after committing exactly `r` new
practicals; it has no skip path. -/
theorem schedule_practicals_count (ga : GA) (cs : ClassSubject) (batch : Batch) :
    ∀ fuel r ind ch ind2 ch2,
      schedule_practicals ga cs batch fuel r ind ch = some (ind2, ch2) →
      ind2.practicals.length = ind.practicals.length + r ∧
      ind2.lectures = ind.lectures ∧ ind2.mentoring = ind.mentoring := by
  intro fuel
  induction fuel with
  | zero =>
    intro r ind ch ind2 ch2 h
    cases r with
    | zero =>
      rw [show schedule_practicals ga cs batch 0 0 ind ch = some (ind, ch)
        from rfl] at h
      injection h with h
      injection h with h1 h2
      subst h1
      exact ⟨rfl, rfl, rfl⟩
    | succ r =>
      rw [show schedule_practicals ga cs batch 0 (r + 1) ind ch = none
        from rfl] at h
      cases h
  | succ fuel ih =>
    intro r ind ch ind2 ch2 h
    cases r with
    | zero =>
      rw [show schedule_practicals ga cs batch (fuel + 1) 0 ind ch
        = some (ind, ch) from rfl] at h
      injection h with h
      injection h with h1 h2
      subst h1
      exact ⟨rfl, rfl, rfl⟩
    | succ r =>
      have hd : schedule_practicals ga cs batch (fuel + 1) (r + 1) ind ch
          = match practical_attempt ga cs batch ind ch with
            | (none, ch2) => schedule_practicals ga cs batch fuel (r + 1) ind ch2
            | (some ind3, ch2) => schedule_practicals ga cs batch fuel r ind3 ch2 := rfl
      rw [hd] at h
      cases hA : practical_attempt ga cs batch ind ch with
      | mk o ch3 =>
        rw [hA] at h
        cases o with
        | none => exact ih (r + 1) ind ch3 ind2 ch2 h
        | some ind3 =>
          obtain ⟨hc1, hc2, hc3⟩ := ih r ind3 ch3 ind2 ch2 h
          obtain ⟨day, s0, room, _, _, _, _, _, rfl⟩ :=
            practical_attempt_commit ga cs batch ind ind3 ch ch3 hA
          refine ⟨?_, hc2, hc3⟩
          simp only [List.length_append, List.length_singleton] at hc1
          omega

/-- The mentoring retry loop commits at most one session and leaves the
other lists untouched. -/
theorem schedule_mentoring_tries_bound (ga : GA) (batch : Batch) :
    ∀ t ind ch,
      (schedule_mentoring_tries ga batch t ind ch).1.mentoring.length ≤
        ind.mentoring.length + 1 ∧
      (schedule_mentoring_tries ga batch t ind ch).1.lectures = ind.lectures ∧
      (schedule_mentoring_tries ga batch t ind ch).1.practicals = ind.practicals := by
  intro t
  induction t with
  | zero =>
    intro ind ch
    exact ⟨Nat.le_succ _, rfl, rfl⟩
  | succ t ih =>
    intro ind ch
    rw [schedule_mentoring_tries]
    cases hA : mentoring_attempt ga batch ind ch with
    | mk o ch3 =>
      cases o with
      | none => exact ih ind ch3
      | some ind3 =>
        obtain ⟨day, slot, room, _, _, _, _, _, rfl⟩ :=
          mentoring_attempt_commit ga batch ind ind3 ch ch3 hA
        refine ⟨?_, rfl, rfl⟩
        simp

/-- One classroom for claim C1's counterexample. -/
def badRoom : Room := ⟨some 1, "A-101", "Classroom", 60⟩

/-- A subject assignment demanding 31 weekly lectures. -/
def badCS : ClassSubject := ⟨1, 1, some 1, 31, 0⟩

/-- A request with a single classroom and one subject demanding 31
weekly lectures — more than the 30 non-lunch `(day, slot)` pairs, so
the lecture while-loop can never commit them all. -/
def badGA : GA := ⟨[badCS], [], [badRoom], [defaultLab]⟩

/-- Invariant maintained by the lecture loop on the counterexample
request: distinct keys, the single room, in-grid days and slots. -/
def LectureGridOk (ind : Individual) : Prop :=
  (ind.lectures.map lectureKey).Nodup ∧
  ∀ l ∈ ind.lectures,
    l.room_id = some 1 ∧ l.day < 5 ∧ l.slot_number ∈ lecture_slots

theorem lectureGridOk_step (cs : ClassSubject) (ind ind2 : Individual)
    (ch ch2 : List Nat) (hP : LectureGridOk ind)
    (hA : lecture_attempt badGA cs ind ch = (some ind2, ch2)) :
    LectureGridOk ind2 := by
  obtain ⟨day, slot, room, hday, hslot, hs2, hbusy, havail, rfl⟩ :=
    lecture_attempt_commit badGA cs ind ind2 ch ch2 hA
  obtain ⟨hroomlist, hl, _⟩ :=
    mem_available_classrooms badGA ind day slot room havail
  have hrid : room.id = some 1 := by
    have hmem : room ∈ [badRoom] := hroomlist
    rw [List.mem_singleton] at hmem
    rw [hmem]
    rfl
  constructor
  · simp only [List.map_append, List.map_singleton]
    rw [List.nodup_append]
    refine ⟨hP.1, by simp, ?_⟩
    intro k hk
    obtain ⟨l, hlm, rfl⟩ := List.mem_map.mp hk
    rw [List.mem_singleton]
    intro hc
    have h1 : l.room_id = room.id := congrArg Prod.fst hc
    have h2 : l.day = day := congrArg (fun k => k.2.1) hc
    have h3 : l.slot_number = slot := congrArg (fun k => k.2.2) hc
    exact hl l hlm h2 h3 h1.symm
  · intro l hl2
    rcases List.mem_append.mp hl2 with hl2 | hl2
    · exact hP.2 l hl2
    · rw [List.mem_singleton] at hl2
      subst hl2
      refine ⟨by rw [mkLecture]; exact hrid, ?_, ?_⟩
      · simpa [days] using hday
      · simpa [mkLecture] using hslot

theorem length_le_of_nodup_subset {α : Type} [DecidableEq α]
    (xs ys : List α) (h1 : xs.Nodup) (h2 : ∀ a ∈ xs, a ∈ ys) :
    xs.length ≤ ys.length := by
  calc xs.length = xs.toFinset.card := (List.toFinset_card_of_nodup h1).symm
    _ ≤ ys.toFinset.card := Finset.card_le_card
        (fun a ha => List.mem_toFinset.mpr (h2 a (List.mem_toFinset.mp ha)))
    _ ≤ ys.length := ys.toFinset_card_le

/-- The 30 possible lecture keys of the counterexample request. -/
def gridKeys : List (Option Nat × Nat × Nat) :=
  days.flatMap (fun d => lecture_slots.map (fun s => (some 1, d, s)))

theorem mem_gridKeys (d s : Nat) (hd : d < 5) (hs : s ∈ lecture_slots) :
    ((some 1 : Option Nat), d, s) ∈ gridKeys := by
  rw [gridKeys, List.mem_flatMap]
  refine ⟨d, ?_, List.mem_map.mpr ⟨s, hs, rfl⟩⟩
  have hall : ∀ x < 5, x ∈ days := by decide
  exact hall d hd

theorem lectureGridOk_length (ind : Individual) (h : LectureGridOk ind) :
    ind.lectures.length ≤ 30 := by
  have h1 : (ind.lectures.map lectureKey).length ≤ gridKeys.length := by
    apply length_le_of_nodup_subset _ _ h.1
    intro k hk
    obtain ⟨l, hlm, rfl⟩ := List.mem_map.mp hk
    obtain ⟨hrid, hday, hslot⟩ := h.2 l hlm
    rw [lectureKey, hrid]
    exact mem_gridKeys l.day l.slot_number hday hslot
  rw [List.length_map] at h1
  have h2 : gridKeys.length = 30 := by decide
  omega

/-- On the counterexample request the lecture while-loop never finishes,
whatever the random stream and however many iterations are allowed. -/
theorem schedule_lectures_badGA_none (fuel : Nat) (ch : List Nat) :
    schedule_lectures badGA badCS fuel 31 emptyIndividual ch = none := by
  cases h : schedule_lectures badGA badCS fuel 31 emptyIndividual ch with
  | none => rfl
  | some out =>
    obtain ⟨ind2, ch2⟩ := out
    exfalso
    have hc := (schedule_lectures_count badGA badCS fuel 31
      emptyIndividual ch ind2 ch2 h).1
    have hg : LectureGridOk ind2 :=
      schedule_lectures_pres badGA badCS LectureGridOk
        (fun i1 i2 c1 c2 hp ha => lectureGridOk_step badCS i1 i2 c1 c2 hp ha)
        fuel 31 emptyIndividual ch ind2 ch2
        ⟨by simp [emptyIndividual], by simp [emptyIndividual]⟩ h
    have hlen := lectureGridOk_length ind2 hg
    simp only [emptyIndividual] at hc
    omega

theorem create_individual_badGA_none (fuel : Nat) (ch : List Nat) :
    create_individual badGA fuel ch = none := by
  rw [create_individual]
  have hd : schedule_all_lectures badGA fuel [badCS] emptyIndividual ch
      = match schedule_lectures badGA badCS fuel badCS.lecture_slots_per_week
          emptyIndividual ch with
        | none => none
        | some (ind3, ch3) => schedule_all_lectures badGA fuel [] ind3 ch3 := rfl
  have hall : schedule_all_lectures badGA fuel badGA.class_subjects
      emptyIndividual ch = none := by
    rw [show badGA.class_subjects = [badCS] from rfl, hd,
      show badCS.lecture_slots_per_week = 31 from rfl,
      schedule_lectures_badGA_none fuel ch]
  rw [hall]

/-- No slot offered to the slot-mutation branch is the lunch slot. -/
theorem mutationSlots_ne_two : ∀ x ∈ mutationSlots, x ≠ 2 := by decide

/-- `mutate` preserves the lunch-slot discipline: a day change keeps the
slot, and a slot change draws from the non-lunch slots. -/
theorem mutate_noLunch (ind : Individual) (ch : List Nat) (hN : NoLunch ind) :
    NoLunch (mutate ind ch).1 := by
  rw [mutate]
  split
  · exact hN
  · rename_i hne
    simp only [draw]
    split
    · exact hN
    · have hlen : 0 < ind.lectures.length := by
        cases hq : ind.lectures with
        | nil => rw [hq] at hne; simp at hne
        | cons a as => simp [hq]
      split
      · refine ⟨?_, hN.2.1, hN.2.2⟩
        intro l hl
        rw [List.modify_eq_set_get _ (Nat.mod_lt _ hlen)] at hl
        rcases List.mem_or_eq_of_mem_set hl with hl | hl
        · exact hN.1 l hl
        · rw [hl]
          simpa using hN.1 _ (List.get_mem ..)
      · refine ⟨?_, hN.2.1, hN.2.2⟩
        intro l hl
        rw [List.modify_eq_set_get _ (Nat.mod_lt _ hlen)] at hl
        rcases List.mem_or_eq_of_mem_set hl with hl | hl
        · exact hN.1 l hl
        · rw [hl]
          simpa using mutationSlots_ne_two _
            (getD_mem _ _ _ (Nat.mod_lt _ (by decide)))

end Builder

section Claim1

/-- C1 counterexample: on the concrete request `badGA` (one classroom,
one subject needing 31 weekly lectures) `create_individual` does not
terminate: whatever the random stream, no iteration budget ever
completes construction — the per-session placement is NOT abandoned
after a bounded resampling budget. -/
theorem c1_counterexample : ¬ buildTerminates badGA := by
  rintro ⟨fuel, ch, out, h⟩
  rw [create_individual_badGA_none fuel ch] at h
  cases h

/-- C1 (amended): construction never propagates an error, and the
mentoring placement is bounded — at most 20 attempts per batch, at most
one committed session, then the slot is skipped — but the lecture and
practical placement loops have no retry budget and no skip path: they
return only once the full required count has been committed, so
construction need not terminate when demand exceeds capacity. -/
theorem c1_retry_structure :
    (∀ ga cs fuel r ind ch ind2 ch2,
      schedule_lectures ga cs fuel r ind ch = some (ind2, ch2) →
      ind2.lectures.length = ind.lectures.length + r) ∧
    (∀ ga cs batch fuel r ind ch ind2 ch2,
      schedule_practicals ga cs batch fuel r ind ch = some (ind2, ch2) →
      ind2.practicals.length = ind.practicals.length + r) ∧
    (∀ ga batch t ind ch,
      (schedule_mentoring_tries ga batch t ind ch).1.mentoring.length ≤
        ind.mentoring.length + 1) := by
  refine ⟨?_, ?_, ?_⟩
  · intro ga cs fuel r ind ch ind2 ch2 h
    exact (schedule_lectures_count ga cs fuel r ind ch ind2 ch2 h).1
  · intro ga cs batch fuel r ind ch ind2 ch2 h
    exact (schedule_practicals_count ga cs batch fuel r ind ch ind2 ch2 h).1
  · intro ga batch t ind ch
    exact (schedule_mentoring_tries_bound ga batch t ind ch).1

/-- The subject assignment of the small successful run used by several
witnesses (identical to the one in `noRoomsGA`). -/
def w1cs : ClassSubject := ⟨1, 1, some 1, 1, 0⟩

/-- The candidate produced by `create_individual noRoomsGA 1 [0, 0, 0]`. -/
def w1ind : Individual := ⟨[mkLecture w1cs defaultClassroom 0 0], [], []⟩

/-- Witness for C1: a concrete lecture loop that completes does commit
exactly its required count. -/
theorem c1_witness :
    w1ind.lectures.length = emptyIndividual.lectures.length + 1 :=
  c1_retry_structure.1 noRoomsGA w1cs 1 1 emptyIndividual [0, 0, 0] w1ind []
    (by rfl)

end Claim1

section Claim3

/-- Lecture A of the C3 counterexample. -/
def c3lecA : Lecture := ⟨1, 1, some 1, some 1, 0, 0, "09:40", "10:40"⟩

/-- Lecture B of the C3 counterexample: same faculty, day 1, slot 0. -/
def c3lecB : Lecture := ⟨2, 2, some 1, some 2, 1, 0, "09:40", "10:40"⟩

/-- A candidate with two lectures of one faculty on different days. -/
def c3ind : Individual := ⟨[c3lecA, c3lecB], [], []⟩

/-- C3 counterexample: `mutate` moves lecture A onto day 1, slot 0 —
where `check_faculty_busy` reports the faculty busy against the rest of
the candidate — so the mutated candidate has a faculty double-booking:
mutation commits without consulting the conflict predicates. -/
theorem c3_counterexample :
    (mutate c3ind [0, 0, 0, 1]).1.lectures =
      [{ c3lecA with day := 1 }, c3lecB] ∧
    check_faculty_busy ⟨[c3lecB], [], []⟩ c3lecA.faculty_id 1 0 = true ∧
    ¬ FacultyOk (mutate c3ind [0, 0, 0, 1]).1 := by
  refine ⟨rfl, rfl, ?_⟩
  intro hok
  have h := hok 1 1 0 one_ne_zero
  revert h
  decide

/-- C3 (amended): during construction every commit is guarded by the
conflict predicates, so every candidate the builder returns is free of
faculty double-booking, classroom double-booking (lectures and
mentoring) and lab overlaps; `mutate`, by contrast, reassigns a
lecture's day or slot without consulting either predicate. -/
theorem c3_construction_consults (ga : GA) (fuel : Nat) (ch : List Nat)
    (ind : Individual) (ch2 : List Nat)
    (h : create_individual ga fuel ch = some (ind, ch2)) :
    FacultyOk ind ∧ RoomsOk ind ∧ LabsOk ind :=
  ⟨(create_individual_inv ga fuel ch ind ch2 h).1,
   (create_individual_inv ga fuel ch ind ch2 h).2.1,
   (create_individual_inv ga fuel ch ind ch2 h).2.2.1⟩

/-- Witness for C3: the amended theorem on a concrete completed run. -/
theorem c3_witness : FacultyOk w1ind ∧ RoomsOk w1ind ∧ LabsOk w1ind :=
  c3_construction_consults noRoomsGA 1 [0, 0, 0] w1ind [] (by rfl)

end Claim3

section Claim7

/-- C7: in every candidate returned by the builder, no two lecture
sessions share the same `(day, slot, room)` triple. -/
theorem c7_no_lecture_room_clash (ga : GA) (fuel : Nat) (ch : List Nat)
    (ind : Individual) (ch2 : List Nat)
    (h : create_individual ga fuel ch = some (ind, ch2)) :
    ind.lectures.Pairwise (fun l1 l2 =>
      ¬(l1.day = l2.day ∧ l1.slot_number = l2.slot_number ∧
        l1.room_id = l2.room_id)) := by
  have hR : RoomsOk ind := (create_individual_inv ga fuel ch ind ch2 h).2.1
  rw [RoomsOk, classroomKeys, List.nodup_append] at hR
  have h1 : (ind.lectures.map lectureKey).Nodup := hR.1
  refine List.Pairwise.imp ?_ (List.pairwise_map.mp h1)
  intro l1 l2 hne hconj
  apply hne
  rw [lectureKey, lectureKey, hconj.1, hconj.2.1, hconj.2.2]

/-- Witness for C7 on a concrete completed run. -/
theorem c7_witness :
    w1ind.lectures.Pairwise (fun l1 l2 =>
      ¬(l1.day = l2.day ∧ l1.slot_number = l2.slot_number ∧
        l1.room_id = l2.room_id)) :=
  c7_no_lecture_room_clash noRoomsGA 1 [0, 0, 0] w1ind [] (by rfl)

end Claim7

section Claim8

/-- C8: no candidate produced by the builder occupies the lunch slot —
lectures and mentoring sessions never sit in slot 2 and every practical
window excludes slot 2 (it is 4-5 or 5-6) — and `mutate` preserves this
discipline (a day change keeps the slot and a slot change draws only
from the non-lunch slots). -/
theorem c8_lunch_never_occupied :
    (∀ ga fuel ch ind ch2,
      create_individual ga fuel ch = some (ind, ch2) →
      (∀ l ∈ ind.lectures, l.slot_number ≠ 2) ∧
      (∀ m ∈ ind.mentoring, m.slot_number ≠ 2) ∧
      (∀ p ∈ ind.practicals, ¬(p.start_slot ≤ 2 ∧ 2 ≤ p.end_slot) ∧
        ((p.start_slot = 4 ∧ p.end_slot = 5) ∨
         (p.start_slot = 5 ∧ p.end_slot = 6)))) ∧
    (∀ ind ch, NoLunch ind → NoLunch (mutate ind ch).1) := by
  constructor
  · intro ga fuel ch ind ch2 h
    obtain ⟨_, _, _, hN⟩ := create_individual_inv ga fuel ch ind ch2 h
    refine ⟨hN.1, hN.2.2, ?_⟩
    intro p hp
    have hw := hN.2.1 p hp
    refine ⟨?_, hw⟩
    rcases hw with ⟨h4, h5⟩ | ⟨h4, h5⟩ <;> omega
  · intro ind ch hN
    exact mutate_noLunch ind ch hN

/-- Witness for C8: the builder part on a concrete completed run and the
mutate part on a concrete candidate. -/
theorem c8_witness :
    (∀ l ∈ w1ind.lectures, l.slot_number ≠ 2) ∧
    NoLunch (mutate w1ind [0, 0, 1, 0]).1 :=
  ⟨(c8_lunch_never_occupied.1 noRoomsGA 1 [0, 0, 0] w1ind [] (by rfl)).1,
   c8_lunch_never_occupied.2 w1ind [0, 0, 1, 0] (by refine ⟨?_, ?_, ?_⟩ <;> decide)⟩

end Claim8

section Claim4

/-- Descending sortedness on fitness-score pairs. -/
def SortedDesc (l : List (Int × Individual)) : Prop :=
  l.Pairwise (fun a b => b.1 ≤ a.1)

theorem insertDesc_perm (x : Int × Individual) (l : List (Int × Individual)) :
    List.Perm (insertDesc x l) (x :: l) := by
  induction l with
  | nil => exact List.Perm.refl _
  | cons y ys ih =>
    rw [insertDesc]
    split
    · exact List.Perm.refl _
    · exact (List.Perm.cons y ih).trans (List.Perm.swap x y ys)

theorem insertDesc_sorted (x : Int × Individual) (l : List (Int × Individual))
    (h : SortedDesc l) : SortedDesc (insertDesc x l) := by
  induction l with
  | nil =>
    rw [insertDesc]
    exact List.pairwise_singleton ..
  | cons y ys ih =>
    obtain ⟨hy, hys⟩ := List.pairwise_cons.mp h
    rw [insertDesc]
    split
    · rename_i hgt
      refine List.Pairwise.cons ?_ h
      intro z hz
      rcases List.mem_cons.mp hz with rfl | hz
      · omega
      · have := hy z hz
        omega
    · rename_i hle
      refine List.Pairwise.cons ?_ (ih hys)
      intro z hz
      rcases List.mem_cons.mp ((insertDesc_perm x ys).mem_iff.mp hz) with rfl | hz
      · omega
      · exact hy z hz

theorem sortDesc_perm (l : List (Int × Individual)) :
    List.Perm (sortDesc l) l := by
  induction l with
  | nil => exact List.Perm.refl _
  | cons x xs ih =>
    rw [show sortDesc (x :: xs) = insertDesc x (sortDesc xs) from rfl]
    exact (insertDesc_perm x (sortDesc xs)).trans (List.Perm.cons x ih)

theorem sortDesc_sorted (l : List (Int × Individual)) :
    SortedDesc (sortDesc l) := by
  induction l with
  | nil => exact List.Pairwise.nil
  | cons x xs ih =>
    rw [show sortDesc (x :: xs) = insertDesc x (sortDesc xs) from rfl]
    exact insertDesc_sorted x (sortDesc xs) ih

/-- The head of the descending sort belongs to the list and dominates
every element. -/
theorem sortDesc_head_max (l : List (Int × Individual))
    (top : Int × Individual) (rest : List (Int × Individual))
    (h : sortDesc l = top :: rest) :
    top ∈ l ∧ ∀ y ∈ l, y.1 ≤ top.1 := by
  have hperm := sortDesc_perm l
  rw [h] at hperm
  refine ⟨hperm.mem_iff.mp (List.mem_cons_self ..), ?_⟩
  intro y hy
  rcases List.mem_cons.mp (hperm.mem_iff.mpr hy) with rfl | hyr
  · omega
  · have hs := sortDesc_sorted l
    rw [h] at hs
    exact (List.pairwise_cons.mp hs).1 y hyr

theorem obLe_refl (a : Option Int) : obLe a a := by
  cases a with
  | none => trivial
  | some a => exact le_refl a

theorem obLe_trans (a b c : Option Int) (h1 : obLe a b) (h2 : obLe b c) :
    obLe a c := by
  cases a with
  | none => trivial
  | some a =>
    cases b with
    | none => cases h1
    | some b =>
      cases c with
      | none => cases h2
      | some c => exact le_trans h1 h2

/-- C4: across every run of the evolution driver the best-so-far fitness
never decreases, the stored best changes only when the top fitness of
the current generation strictly exceeds the previous best, and on
replacement the stored solution is a (deep) copy of the generation's
top candidate; the loop over all generations is therefore monotone. -/
theorem c4_best_monotone :
    (∀ ga fuel population_size elite_size st ch st2 ch2,
      generationStep ga fuel population_size elite_size st ch = some (st2, ch2) →
      obLe st.best_fitness st2.best_fitness ∧
      ((st2.best_fitness ≠ st.best_fitness ∨
        st2.best_solution ≠ st.best_solution) →
        ∃ top : Int × Individual,
          top.2 ∈ st.population ∧ top.1 = calculate_fitness ga top.2 ∧
          (∀ y ∈ st.population, calculate_fitness ga y ≤ top.1) ∧
          gtBest top.1 st.best_fitness = true ∧
          st2.best_fitness = some top.1 ∧
          st2.best_solution = some (deepcopy top.2))) ∧
    (∀ ga fuel population_size elite_size g st ch st2 ch2,
      evolveLoop ga fuel population_size elite_size g st ch = some (st2, ch2) →
      obLe st.best_fitness st2.best_fitness) := by
  have hstep : ∀ ga fuel population_size elite_size st ch st2 ch2,
      generationStep ga fuel population_size elite_size st ch = some (st2, ch2) →
      obLe st.best_fitness st2.best_fitness ∧
      ((st2.best_fitness ≠ st.best_fitness ∨
        st2.best_solution ≠ st.best_solution) →
        ∃ top : Int × Individual,
          top.2 ∈ st.population ∧ top.1 = calculate_fitness ga top.2 ∧
          (∀ y ∈ st.population, calculate_fitness ga y ≤ top.1) ∧
          gtBest top.1 st.best_fitness = true ∧
          st2.best_fitness = some top.1 ∧
          st2.best_solution = some (deepcopy top.2)) := by
    intro ga fuel population_size elite_size st ch st2 ch2 h
    rw [generationStep] at h
    cases hs : sortDesc (st.population.map (fun i => (calculate_fitness ga i, i))) with
    | nil => rw [hs] at h; cases h
    | cons top rest =>
      rw [hs] at h
      obtain ⟨htopmem, htopmax⟩ := sortDesc_head_max _ top rest hs
      obtain ⟨i, hi, hieq⟩ := List.mem_map.mp htopmem
      have htop2 : top.2 ∈ st.population := by
        rw [← hieq]
        exact hi
      have htop1 : top.1 = calculate_fitness ga top.2 := by
        rw [← hieq]
      have hmax : ∀ y ∈ st.population, calculate_fitness ga y ≤ top.1 := by
        intro y hy
        exact htopmax (calculate_fitness ga y, y) (List.mem_map.mpr ⟨y, hy, rfl⟩)
      by_cases hgt : gtBest top.1 st.best_fitness = true
      · have h2 : (match reproduce ga fuel (top :: rest)
              (population_size - (((top :: rest).take elite_size).map (fun x => x.2)).length)
              (((top :: rest).take elite_size).map (fun x => x.2)) ch with
            | none => none
            | some (next_generation, ch2) =>
              some (⟨next_generation, some top.1, some (deepcopy top.2)⟩, ch2))
            = some (st2, ch2) := by
          rw [← h]
          simp only [hgt, if_true]
        cases hr : reproduce ga fuel (top :: rest)
            (population_size - (((top :: rest).take elite_size).map (fun x => x.2)).length)
            (((top :: rest).take elite_size).map (fun x => x.2)) ch with
        | none => rw [hr] at h2; cases h2
        | some outR =>
          obtain ⟨nextg, ch3⟩ := outR
          rw [hr] at h2
          have h3 : (⟨nextg, some top.1, some (deepcopy top.2)⟩ : GenState) = st2 := by
            injection h2 with h2
            exact congrArg Prod.fst h2
          subst h3
          constructor
          · simp only [gtBest] at hgt
            cases hb : st.best_fitness with
            | none => trivial
            | some b =>
              rw [hb] at hgt
              simp only [decide_eq_true_eq] at hgt
              simp only [obLe]
              omega
          · intro _
            exact ⟨top, htop2, htop1, hmax, hgt, rfl, rfl⟩
      · have hgf : gtBest top.1 st.best_fitness = false :=
          Bool.not_eq_true _ ▸ eq_false_of_ne_true hgt
        have h2 : (match reproduce ga fuel (top :: rest)
              (population_size - (((top :: rest).take elite_size).map (fun x => x.2)).length)
              (((top :: rest).take elite_size).map (fun x => x.2)) ch with
            | none => none
            | some (next_generation, ch2) =>
              some (⟨next_generation, st.best_fitness, st.best_solution⟩, ch2))
            = some (st2, ch2) := by
          rw [← h]
          simp only [hgf, Bool.false_eq_true, if_false]
        cases hr : reproduce ga fuel (top :: rest)
            (population_size - (((top :: rest).take elite_size).map (fun x => x.2)).length)
            (((top :: rest).take elite_size).map (fun x => x.2)) ch with
        | none => rw [hr] at h2; cases h2
        | some outR =>
          obtain ⟨nextg, ch3⟩ := outR
          rw [hr] at h2
          have h3 : (⟨nextg, st.best_fitness, st.best_solution⟩ : GenState) = st2 := by
            injection h2 with h2
            exact congrArg Prod.fst h2
          subst h3
          refine ⟨obLe_refl _, ?_⟩
          intro hc
          rcases hc with hc | hc
          · exact absurd rfl hc
          · exact absurd rfl hc
  refine ⟨hstep, ?_⟩
  intro ga fuel population_size elite_size g
  induction g with
  | zero =>
    intro st ch st2 ch2 h
    injection h with h
    injection h with h1 h2
    subst h1
    exact obLe_refl _
  | succ g ih =>
    intro st ch st2 ch2 h
    rw [evolveLoop] at h
    cases hg : generationStep ga fuel population_size elite_size st ch with
    | none => rw [hg] at h; cases h
    | some out =>
      obtain ⟨st3, ch3⟩ := out
      rw [hg] at h
      exact obLe_trans _ _ _
        (hstep ga fuel population_size elite_size st ch st3 ch3 hg).1
        (ih st3 ch3 st2 ch2 h)

/-- The initial driver state on a one-candidate population. -/
def w4st : GenState := ⟨[emptyIndividual], none, none⟩

/-- The state after one generation of the concrete run: the empty
candidate of `noRoomsGA` scores `1000 - 30 = 970` (one missing required
lecture) and becomes the stored best. -/
def w4st1 : GenState := ⟨[emptyIndividual], some 970, some emptyIndividual⟩

/-- Witness for C4: one concrete generation step with its hypothesis
discharged by evaluation. -/
theorem c4_witness : obLe w4st.best_fitness w4st1.best_fitness :=
  (c4_best_monotone.1 noRoomsGA 1 1 1 w4st [] w4st1 [] (by decide)).1

end Claim4

end TimetableGA
